import Mathlib

/-!
# Verification of the `refactor_forge` analysis core

This file gives a shallow embedding, in Lean 4, of the analysis core of the
`refactor_forge` repository (boundary detection, grouping, name-based
dependency inference, import symbol table, purpose inference, and the
string-case utilities), together with theorems settling the frozen claims
about that code.

Embedding conventions:
* Python strings are embedded as `List Char`; all character classes are the
  ASCII classes used by the source's regexes (`[A-Z]`, `[a-z]`, `\s`, ...).
* CPython's `ast.parse` is not re-implemented; every function of the source
  that calls it takes an explicit oracle `P : PyParse` mapping source text to
  `some tree` (the parse succeeds with that tree) or `none` (`SyntaxError`).
  Concrete theorems instantiate the oracle on concrete texts with their real
  CPython parses, which a reviewer can check by hand.
* Exceptions are modelled with `Except PyErr`; a Python function that can
  raise is embedded with result type `Except PyErr α`.
* `dict` is an insertion-ordered association list where inserting an existing
  key overwrites the value in place; `set` is an insertion-ordered list of
  distinct elements (only membership is ever observed by the claims).
-/

namespace RefactorForge

/-- Exceptions that the embedded code can raise. -/
inductive PyErr where
  | syntaxError
  | attributeError
deriving DecidableEq, Repr

/-! ## ASCII character classes and elementary string operations -/

/-- Python regex class `[A-Z]`. -/
def pyIsUpper (c : Char) : Bool := 65 ≤ c.toNat && c.toNat ≤ 90

/-- Python regex class `[a-z]`. -/
def pyIsLower (c : Char) : Bool := 97 ≤ c.toNat && c.toNat ≤ 122

/-- Python regex class `[0-9]`. -/
def pyIsDigit (c : Char) : Bool := 48 ≤ c.toNat && c.toNat ≤ 57

/-- ASCII letter. -/
def pyIsAlpha (c : Char) : Bool := pyIsUpper c || pyIsLower c

/-- Python regex class `\w` (ASCII): letters, digits and underscore. -/
def pyIsWord (c : Char) : Bool := pyIsAlpha c || pyIsDigit c || c = '_'

/-- The whitespace characters recognised by Python's `str.strip()` and the
regex class `\s` (ASCII range): space, tab, newline, carriage return,
vertical tab, form feed. -/
def pyIsSpace (c : Char) : Bool :=
  c.toNat = 32 || c.toNat = 9 || c.toNat = 10 || c.toNat = 13 || c.toNat = 11 || c.toNat = 12

/-- `str.lower` on one ASCII character (`'A'..'Z'` shifted down by 32). -/
def pyToLower (c : Char) : Char :=
  if pyIsUpper c then Char.ofNat (c.toNat + 32) else c

/-- `str.upper` on one ASCII character (`'a'..'z'` shifted up by 32). -/
def pyToUpper (c : Char) : Char :=
  if pyIsLower c then Char.ofNat (c.toNat - 32) else c

/-- `str.lower()` over a whole string. -/
def pyStrLower (l : List Char) : List Char := l.map pyToLower

/-- `str.strip()` (no argument): remove whitespace from both ends. -/
def pyStrip (l : List Char) : List Char :=
  ((l.dropWhile pyIsSpace).reverse.dropWhile pyIsSpace).reverse

/-- `str.strip('_')`: remove underscores from both ends. -/
def pyStripUnderscore (l : List Char) : List Char :=
  ((l.dropWhile (· = '_')).reverse.dropWhile (· = '_')).reverse

/-- Helper for `pySplitChar`, accumulating the current field reversed. -/
def pySplitAux (sep : Char) : List Char → List Char → List (List Char)
  | [], acc => [acc.reverse]
  | c :: t, acc =>
      if c = sep then acc.reverse :: pySplitAux sep t []
      else pySplitAux sep t (c :: acc)

/-- Python `str.split(sep)` for a one-character separator: empty fields are
kept, and splitting the empty string yields one empty field. -/
def pySplitChar (sep : Char) (l : List Char) : List (List Char) :=
  pySplitAux sep l []

/-- `str.replace(old, new)` for one-character arguments. -/
def pyReplaceChar (old new : Char) (l : List Char) : List Char :=
  l.map (fun c => if c = old then new else c)

/-! ## The embedded Python abstract syntax tree

Only the node kinds inspected by the analysis core are represented.  Import
aliases are pairs `(imported name, optional asname)` exactly as in
`ast.alias`. -/

/-- Expression contexts (`ast.Load` / `ast.Store`). -/
inductive PyCtx where
  | load
  | store
deriving DecidableEq, Repr

mutual

/-- Embedded `ast` expression nodes. -/
inductive PyExpr where
  | name (id : String) (ctx : PyCtx)
  | call (func : PyExpr) (args : List PyExpr)
  | attribute (value : PyExpr) (attr : String) (ctx : PyCtx)
  | constStr (s : String)
  | constInt (n : Int)
  | constNone

/-- Embedded `ast` statement nodes. -/
inductive PyStmt where
  | functionDef (name : String) (args : List String) (body : List PyStmt) (lineno : Nat)
  | classDef (name : String) (body : List PyStmt) (lineno : Nat)
  | assign (targets : List PyExpr) (value : PyExpr) (lineno : Nat)
  | annAssign (target : PyExpr) (value : Option PyExpr) (lineno : Nat)
  | imp (names : List (String × Option String)) (lineno : Nat)
  | impFrom (module : Option String) (names : List (String × Option String)) (lineno : Nat)
  | exprStmt (value : PyExpr) (lineno : Nat)
  | ret (value : Option PyExpr) (lineno : Nat)
  | pass (lineno : Nat)

end

/-- A parsed module is its list of top-level statements (`ast.Module.body`). -/
abbrev PyTree := List PyStmt

/-- The `ast.parse` oracle: `some tree` models a successful parse of the given
text, `none` models a `SyntaxError`. -/
abbrev PyParse := List Char → Option PyTree

/-- `ast.parse` as a fallible call through the oracle. -/
def pyParseE (P : PyParse) (text : List Char) : Except PyErr PyTree :=
  match P text with
  | some t => .ok t
  | none => .error .syntaxError

mutual

/-- All statement nodes reached from one statement (the node itself and the
statements nested in `FunctionDef`/`ClassDef` bodies), as visited by
`ast.walk`.  Only the set of visited nodes matters to the extraction
functions, which build sets. -/
def stmtNodes : PyStmt → List PyStmt
  | .functionDef n a b l => .functionDef n a b l :: stmtListNodes b
  | .classDef n b l => .classDef n b l :: stmtListNodes b
  | s => [s]

/-- All statement nodes reached from a list of statements. -/
def stmtListNodes : List PyStmt → List PyStmt
  | [] => []
  | s :: t => stmtNodes s ++ stmtListNodes t

end

mutual

/-- All expression nodes reached from one expression (the node and its
sub-expressions), as visited by `ast.walk`. -/
def exprNodes : PyExpr → List PyExpr
  | .call f a => .call f a :: (exprNodes f ++ exprListNodes a)
  | .attribute v at_ c => .attribute v at_ c :: exprNodes v
  | e => [e]

/-- All expression nodes reached from a list of expressions. -/
def exprListNodes : List PyExpr → List PyExpr
  | [] => []
  | e :: t => exprNodes e ++ exprListNodes t

end

/-- The direct expression children of a statement node. -/
def stmtTopExprs : PyStmt → List PyExpr
  | .assign ts v _ => ts ++ [v]
  | .annAssign t v _ => t :: v.toList
  | .exprStmt v _ => [v]
  | .ret v _ => v.toList
  | _ => []

/-- Every expression node appearing anywhere in a statement list, as visited
by `ast.walk` over the whole tree. -/
def allExprNodes (body : List PyStmt) : List PyExpr :=
  (stmtListNodes body).flatMap (fun s => exprListNodes (stmtTopExprs s))

/-- Python `set.add`: append if not already present (insertion order kept). -/
def pyInsert (s : List String) (x : String) : List String :=
  if x ∈ s then s else s ++ [x]

/-! ## `analyzer/dependency_analyzer.py` — name extraction -/

/-- `extract_referenced_names` (src/analyzer/dependency_analyzer.py, 51-76):
names in load context, callee names of direct calls, and root names of
attribute accesses in load context. -/
def extractReferencedNames (body : List PyStmt) : List String :=
  (allExprNodes body).foldl
    (fun s e =>
      match e with
      | .name id .load => pyInsert s id
      | .call (.name f _) _ => pyInsert s f
      | .attribute (.name v _) _ .load => pyInsert s v
      | _ => s)
    []

/-- `extract_defined_names` (src/analyzer/dependency_analyzer.py, 79-109):
function and class definition names, simple-name assignment targets, and
simple-name annotated-assignment targets, over all walked nodes. -/
def extractDefinedNames (body : List PyStmt) : List String :=
  (stmtListNodes body).foldl
    (fun s n =>
      match n with
      | .functionDef nm _ _ _ => pyInsert s nm
      | .classDef nm _ _ => pyInsert s nm
      | .assign ts _ _ =>
          ts.foldl
            (fun s2 t =>
              match t with
              | .name id _ => pyInsert s2 id
              | _ => s2)
            s
      | .annAssign (.name id _) _ _ => pyInsert s id
      | _ => s)
    []

/-! ## `analyzer/import_analyzer.py` — the import symbol table -/

/-- One symbol-table entry, mirroring the two dict shapes built by
`analyze_imports`: `type`/`source`/`alias`/`lineno` for `import`, plus the
imported `name` for `from ... import`. -/
inductive SymEntry where
  | entryImp (source : String) (al : Option String) (lineno : Nat)
  | entryFrom (source : Option String) (nm : String) (al : Option String) (lineno : Nat)
deriving DecidableEq, Repr

/-- A Python dict keyed by strings: insertion-ordered association list. -/
abbrev SymTable := List (String × SymEntry)

/-- `dict.__setitem__`: overwrite in place if the key exists, else append. -/
def dictInsert (t : SymTable) (k : String) (v : SymEntry) : SymTable :=
  match t with
  | [] => [(k, v)]
  | (k0, v0) :: rest =>
      if k0 = k then (k0, v) :: rest else (k0, v0) :: dictInsert rest k v

/-- `dict.get`. -/
def dictLookup (t : SymTable) (k : String) : Option SymEntry :=
  (t.find? (fun p => p.1 == k)).map (·.2)

/-- The `(effective local name, entry)` bindings contributed by one statement:
the key is `name.asname or name.name`. -/
def importEntries : PyStmt → List (String × SymEntry)
  | .imp names l => names.map (fun na => (na.2.getD na.1, .entryImp na.1 na.2 l))
  | .impFrom m names l => names.map (fun na => (na.2.getD na.1, .entryFrom m na.1 na.2 l))
  | _ => []

/-- `analyze_imports` (src/analyzer/import_analyzer.py, 12-47): walk the tree
and record every import binding into the symbol table, later bindings of the
same local name overwriting earlier ones. -/
def analyzeImports (tree : PyTree) : SymTable :=
  (stmtListNodes tree).foldl
    (fun tbl s => (importEntries s).foldl (fun t kv => dictInsert t kv.1 kv.2) tbl)
    []

/-! ## A small backtracking matcher for the source's regular expressions

The five boundary patterns of the detector are fixed regexes; they are encoded
as sequences of `Piece`s and matched by an explicit backtracking engine with
the scheduling of Python's `re` (greedy stars try the longest extension first,
lazy stars the shortest; `(\(.*?\))?` is a greedy optional group around a lazy
parenthesised body; `.` never matches a newline). -/

/-- One piece of an encoded regex: a single character class, a greedy
(`*`) or lazy (`*?`) star over a class, or the optional group `(\(.*?\))?`. -/
inductive Piece where
  | one (p : Char → Bool)
  | starG (p : Char → Bool)
  | starL (p : Char → Bool)
  | parenOpt

/-- Literal character piece. -/
def lit (c : Char) : Piece := .one (· = c)

/-- Literal string as a piece sequence. -/
def lits (s : String) : List Piece := s.toList.map lit

mutual

/-- Match a piece sequence against a prefix of `l`, returning the remaining
suffix of the first match found in Python's backtracking order.  Structural
recursion on an explicit fuel parameter so that evaluation is definitional;
each recursive call strictly decreases the lexicographic measure
`(l.length, pieces.length)` and the piece list never grows, so any fuel
exceeding `(l.length + 1) * (pieces.length + 2)` makes the fuel-exhaustion
branch unreachable. -/
def matchPiecesF : Nat → List Piece → List Char → Option (List Char)
  | 0, _, _ => none
  | _ + 1, [], l => some l
  | _ + 1, .one _ :: _, [] => none
  | fuel + 1, .one p :: ps, c :: l => if p c then matchPiecesF fuel ps l else none
  | fuel + 1, .starG _ :: ps, [] => matchPiecesF fuel ps []
  | fuel + 1, .starG p :: ps, c :: l =>
      if p c then
        (matchPiecesF fuel (.starG p :: ps) l).orElse (fun _ => matchPiecesF fuel ps (c :: l))
      else matchPiecesF fuel ps (c :: l)
  | fuel + 1, .starL _ :: ps, [] => matchPiecesF fuel ps []
  | fuel + 1, .starL p :: ps, c :: l =>
      if p c then
        (matchPiecesF fuel ps (c :: l)).orElse (fun _ => matchPiecesF fuel (.starL p :: ps) l)
      else matchPiecesF fuel ps (c :: l)
  | fuel + 1, .parenOpt :: ps, l =>
      (match l with
       | '(' :: t => scanParenF fuel ps t
       | _ => none).orElse (fun _ => matchPiecesF fuel ps l)

/-- Inside `(\(.*?\))?` after the opening parenthesis: lazily scan for a `)`
(the body `.*?` cannot cross a newline), trying the continuation at each
closing candidate. -/
def scanParenF : Nat → List Piece → List Char → Option (List Char)
  | 0, _, _ => none
  | _ + 1, _, [] => none
  | fuel + 1, ps, c :: t =>
      if c = ')' then (matchPiecesF fuel ps t).orElse (fun _ => scanParenF fuel ps t)
      else if c = '\n' then none
      else scanParenF fuel ps t

end

/-- The engine with its sufficient fuel (see `matchPiecesF`). -/
def matchPieces (ps : List Piece) (l : List Char) : Option (List Char) :=
  matchPiecesF ((l.length + 1) * (ps.length + 2) + 1) ps l

/-- `pattern.match(line)` — anchored at the start, truthiness only. -/
def reMatch (ps : List Piece) (l : List Char) : Bool := (matchPieces ps l).isSome

/-- The class `[\-─═]` of the repeated-rule divider. -/
def dashClass (c : Char) : Bool := c = '-' || c = '─' || c = '═'

/-- `.` in a non-DOTALL pattern. -/
def dotClass (c : Char) : Bool := c ≠ '\n'

/-- `[A-Za-z0-9_ ]` of the hashed title divider. -/
def titleClass (c : Char) : Bool := pyIsAlpha c || pyIsDigit c || c = '_' || c = ' '

/-- `[a-zA-Z0-9]` of the class-definition pattern (no underscore). -/
def alnumClass (c : Char) : Bool := pyIsAlpha c || pyIsDigit c

/-- Modelled from the spec: `COMPILED_BOUNDARY_PATTERNS` lives in
`core/config.py`, which is not among the provided sources; the pattern list is
taken from the identical table `MODULE_BOUNDARY_PATTERNS` in `src/analyzer.py`
lines 25-34, which the spec §4.1 restates pattern by pattern.
Pattern 1: `# [\-─═]{2,}.*?[\-─═]{2,}`. -/
def boundaryPattern1 : List Piece :=
  lits "# " ++ [.one dashClass, .one dashClass, .starG dashClass, .starL dotClass,
    .one dashClass, .one dashClass, .starG dashClass]

/-- Pattern 2: `# ╭.*?╮\s*# │.*?│\s*# ╰.*?╯`. -/
def boundaryPattern2 : List Piece :=
  lits "# ╭" ++ [.starL dotClass] ++ lits "╮" ++ [.starG pyIsSpace] ++
  lits "# │" ++ [.starL dotClass] ++ lits "│" ++ [.starG pyIsSpace] ++
  lits "# ╰" ++ [.starL dotClass] ++ lits "╯"

/-- Pattern 3: `#{3,}\s*([A-Za-z0-9_ ]+)\s*#{3,}` (group irrelevant to a
boolean match). -/
def boundaryPattern3 : List Piece :=
  [lit '#', lit '#', lit '#', .starG (· = '#'), .starG pyIsSpace,
   .one titleClass, .starG titleClass, .starG pyIsSpace,
   lit '#', lit '#', lit '#', .starG (· = '#')]

/-- Pattern 4: `class [A-Z][a-zA-Z0-9]*(\(.*?\))?:`. -/
def boundaryPattern4 : List Piece :=
  lits "class " ++ [.one pyIsUpper, .starG alnumClass, .parenOpt, lit ':']

/-- Pattern 5: `@\w+\s*(\(.*?\))?\s*\n+def ` (needs a newline, so it can never
match one line of a `split('\n')` result, but is embedded in full). -/
def boundaryPattern5 : List Piece :=
  [lit '@', .one pyIsWord, .starG pyIsWord, .starG pyIsSpace, .parenOpt,
   .starG pyIsSpace, lit '\n', .starG (· = '\n')] ++ lits "def "

/-- The compiled boundary pattern list, in source order. -/
def boundaryPatterns : List (List Piece) :=
  [boundaryPattern1, boundaryPattern2, boundaryPattern3, boundaryPattern4, boundaryPattern5]

/-- `any(pattern.match(line) for pattern in COMPILED_BOUNDARY_PATTERNS)`. -/
def boundaryMatch (line : List Char) : Bool :=
  boundaryPatterns.any (fun ps => reMatch ps line)

/-! ## Dedicated searchers for the group-extracting regexes

`re.search` scans start positions left to right; each searcher below
implements one specific regex of the source together with its capture
group. -/

/-- Scan start positions left to right, returning the first group found. -/
def searchScan (f : List Char → Option (List Char)) : List Char → Option (List Char)
  | [] => f []
  | c :: t =>
      match f (c :: t) with
      | some r => some r
      | none => searchScan f t

/-- `class ([A-Z][a-zA-Z0-9_]*)` anchored at one position: the group is the
capital letter followed by the greedy run of word characters. -/
def classNameAt : List Char → Option (List Char)
  | 'c' :: 'l' :: 'a' :: 's' :: 's' :: ' ' :: c :: t =>
      if pyIsUpper c then some (c :: t.takeWhile pyIsWord) else none
  | _ => none

/-- `re.search(r"class ([A-Z][a-zA-Z0-9_]*)", content)`, group 1. -/
def searchClassName (content : List Char) : Option (List Char) :=
  searchScan classNameAt content

/-- `def ([a-z][a-zA-Z0-9_]*)\(` anchored at one position: the greedy word run
must be followed directly by `(` (no shorter run can, since a word character
is never `(`). -/
def funcNameAt : List Char → Option (List Char)
  | 'd' :: 'e' :: 'f' :: ' ' :: c :: t =>
      if pyIsLower c then
        match t.dropWhile pyIsWord with
        | '(' :: _ => some (c :: t.takeWhile pyIsWord)
        | _ => none
      else none
  | _ => none

/-- `re.search(r"def ([a-z][a-zA-Z0-9_]*)\(", content)`, group 1. -/
def searchFuncName (content : List Char) : Option (List Char) :=
  searchScan funcNameAt content

/-- Opening box glyphs `[│╭╰]` of the section-header regex. -/
def glyphOpen (c : Char) : Bool := c = '│' || c = '╭' || c = '╰'

/-- Closing box glyphs `[│╮╯]`. -/
def glyphClose (c : Char) : Bool := c = '│' || c = '╮' || c = '╯'

/-- `[A-Za-z ]`, the label class of the section-header regex. -/
def labelClass (c : Char) : Bool := pyIsAlpha c || c = ' '

/-- After the lazy label group: `[ ]*[│╮╯]`.  Shrinking the greedy space run
would expose a space where the closing glyph is required, so the check is
equivalent to skipping all spaces and testing the glyph. -/
def hClose (l : List Char) : Bool :=
  match l.dropWhile (· = ' ') with
  | c :: _ => glyphClose c
  | [] => false

/-- The lazy label group `([A-Za-z ]+?)`: after each accepted character first
try to close, and only extend the group when closing fails. -/
def hGroup (acc : List Char) : List Char → Option (List Char)
  | [] => none
  | c :: t =>
      if labelClass c then
        if hClose t then some (acc ++ [c]) else hGroup (acc ++ [c]) t
      else none

/-- The leading greedy `[ ]*` before the label: consume as many spaces as
possible, backtracking one at a time into the group (whose class also
contains the space). -/
def hSpaces : List Char → Option (List Char)
  | [] => none
  | c :: t =>
      if c = ' ' then
        match hSpaces t with
        | some r => some r
        | none => hGroup [] (c :: t)
      else hGroup [] (c :: t)

/-- `# [│╭╰][ ]*([A-Za-z ]+?)[ ]*[│╮╯]` anchored at one position. -/
def headerLabelAt : List Char → Option (List Char)
  | '#' :: ' ' :: c :: t => if glyphOpen c then hSpaces t else none
  | _ => none

/-- `re.search(r"# [│╭╰][ ]*([A-Za-z ]+?)[ ]*[│╮╯]", content)`, group 1. -/
def searchHeaderLabel (content : List Char) : Option (List Char) :=
  searchScan headerLabelAt content

/-- The lazy body of `"""(.*?)"""` in DOTALL mode: accumulate until the first
closing triple quote. -/
def docScan (acc : List Char) : List Char → Option (List Char)
  | '"' :: '"' :: '"' :: _ => some acc.reverse
  | [] => none
  | c :: t => docScan (c :: acc) t

/-- `"""(.*?)"""` anchored at one position. -/
def docstringAt : List Char → Option (List Char)
  | '"' :: '"' :: '"' :: t => docScan [] t
  | _ => none

/-- `re.search(r'"""(.*?)"""', content, re.DOTALL)`, group 1. -/
def searchDocstring (content : List Char) : Option (List Char) :=
  searchScan docstringAt content

/-- `# ([A-Za-z].*)` anchored at one position. -/
def commentAt : List Char → Option (List Char)
  | '#' :: ' ' :: c :: t =>
      if pyIsAlpha c then some (c :: t.takeWhile (· ≠ '\n')) else none
  | _ => none

/-- `re.search(r'# ([A-Za-z].*)', content)`, group 1. -/
def searchComment (content : List Char) : Option (List Char) :=
  searchScan commentAt content

/-- `dropWhile` never lengthens a list (termination helper). -/
theorem dropWhile_length_le (p : α → Bool) (l : List α) :
    (l.dropWhile p).length ≤ l.length := by
  induction l with
  | nil => simp
  | cons c t ih =>
      by_cases h : p c = true
      · simp only [List.dropWhile_cons_of_pos h, List.length_cons]
        omega
      · simp [List.dropWhile_cons_of_neg h]

/-- Helper for `wordRuns`: `cur` is the current word-character run,
reversed. -/
def wordRunsGo : List Char → List Char → List (List Char)
  | [], cur => if cur = [] then [] else [cur.reverse]
  | c :: t, cur =>
      if pyIsWord c then wordRunsGo t (c :: cur)
      else if cur = [] then wordRunsGo t []
      else cur.reverse :: wordRunsGo t []

/-- The maximal runs of word characters in a text, in order. -/
def wordRuns (l : List Char) : List (List Char) := wordRunsGo l []

/-- `set(re.findall(r'\b([a-zA-Z_][a-zA-Z0-9_]*)\b', content))`: the maximal
word-character runs whose first character is a letter or underscore (a run
starting with a digit has no word boundary before any later letter). -/
def identifierFindall (l : List Char) : List String :=
  ((wordRuns l).filter
      (fun r => match r with
        | c :: _ => pyIsAlpha c || c = '_'
        | [] => false)).foldl
    (fun s r => pyInsert s r.asString) []

/-! ## `analyzer/module_detector.py` — boundary detection -/

/-- `_find_section_boundaries` (module_detector.py, 43-57): for every line,
append its 0-based index once per matching boundary pattern. -/
def findSectionBoundaries (lines : List (List Char)) : List Nat :=
  lines.enum.flatMap
    (fun p => (boundaryPatterns.filter (fun ps => reMatch ps p.2)).map (fun _ => p.1))

/-- The name of a class or function definition node, if the node is one. -/
def defNodeName : PyStmt → Option String
  | .functionDef n _ _ _ => some n
  | .classDef n _ _ => some n
  | _ => none

/-- The `lineno` field of a statement node. -/
def stmtLineno : PyStmt → Nat
  | .functionDef _ _ _ l => l
  | .classDef _ _ l => l
  | .assign _ _ l => l
  | .annAssign _ _ l => l
  | .imp _ l => l
  | .impFrom _ _ l => l
  | .exprStmt _ l => l
  | .ret _ l => l
  | .pass l => l

/-- `isinstance(ast.iter_fields(tree), ast.Module)` (module_detector.py, 73):
`ast.iter_fields` returns a generator object, which is never an instance of
`ast.Module`, so this test is always false. -/
def iterFieldsIsModule : Bool := false

/-- `ast.iter_ancestors(node)` (module_detector.py, 74): the CPython `ast`
module defines no attribute `iter_ancestors`, so evaluating this expression
raises `AttributeError`.  (The legacy copy in `src/analyzer.py` line 143 reads
the equally nonexistent `node.parent` with the same outcome.) -/
def iterAncestors (_ : PyStmt) : Except PyErr (List PyStmt) := .error .attributeError

/-- There is no separate `Module` node among walked statements in this
embedding; the ancestor test of the source is never reached anyway because
`iterAncestors` raises first. -/
def isModuleNode (_ : PyStmt) : Bool := false

/-- The walk loop of `_find_definition_boundaries` (module_detector.py,
69-77). -/
def fdbGo : List PyStmt → List Nat → Except PyErr (List Nat)
  | [], acc => .ok acc
  | n :: rest, acc =>
      match defNodeName n with
      | some nm =>
          if nm.data.headD ' ' = '_' then fdbGo rest acc
          else if iterFieldsIsModule then fdbGo rest (acc ++ [stmtLineno n - 1])
          else
            match iterAncestors n with
            | .error e => .error e
            | .ok anc =>
                if anc.any isModuleNode then fdbGo rest (acc ++ [stmtLineno n - 1])
                else fdbGo rest acc
      | none => fdbGo rest acc

/-- `_find_definition_boundaries` (module_detector.py, 60-77). -/
def findDefinitionBoundaries (tree : PyTree) : Except PyErr (List Nat) :=
  fdbGo (stmtListNodes tree) []

/-- Insert into an ascending duplicate-free list. -/
def insSorted (n : Nat) : List Nat → List Nat
  | [] => [n]
  | h :: t => if n < h then n :: h :: t else if n = h then h :: t else h :: insSorted n t

/-- `sorted(set(xs))`: ascending and duplicate-free. -/
def dedupSort (l : List Nat) : List Nat :=
  l.foldl (fun acc n => insSorted n acc) []

/-- The grouping loop of `_group_related_boundaries` (module_detector.py,
90-103).  `boundary - current_group[-1] < threshold` is computed here with
truncated `Nat` subtraction, which agrees with Python's integer test for every
positive threshold: `b - last < thr` holds in `ℤ` iff `b < last + thr` iff the
truncated difference is `< thr`. -/
def groupGo (thr : Nat) : List Nat → List (List Nat) → List Nat → List (List Nat)
  | [], grouped, cur => if cur.isEmpty then grouped else grouped ++ [cur]
  | b :: bs, grouped, cur =>
      if cur = [] ∨ b - cur.getLastD 0 < thr then groupGo thr bs grouped (cur ++ [b])
      else groupGo thr bs (grouped ++ [cur]) [b]

/-- `_group_related_boundaries` (module_detector.py, 80-103); the source's
default `proximity_threshold` is 10. -/
def groupRelatedBoundaries (boundaries : List Nat) (thr : Nat) : List (List Nat) :=
  groupGo thr boundaries [] []

/-- `lines[i]` for an index produced by the detector (always in range there). -/
def lineAt (lines : List (List Char)) (i : Nat) : List Char := lines.getD i []

/-- `_find_module_start` (module_detector.py, 140-156): walk backwards while
the preceding stripped line is non-blank and matches no boundary pattern. -/
def findModuleStart (lines : List (List Char)) : Nat → Nat
  | 0 => 0
  | s + 1 =>
      let prev := pyStrip (lineAt lines s)
      if prev = [] ∨ boundaryMatch prev then s + 1
      else findModuleStart lines s

/-- The loop of `_find_module_end`, structural on fuel; the loop increments
`e` while `e < lines.length - 1`, so `lines.length` iterations always
suffice. -/
def findModuleEndGo (lines : List (List Char)) : Nat → Nat → Nat
  | 0, e => e
  | fuel + 1, e =>
      if e < lines.length - 1 then
        let nxt := pyStrip (lineAt lines (e + 1))
        if boundaryMatch nxt then e
        else if nxt = [] ∧ e + 2 < lines.length ∧ pyStrip (lineAt lines (e + 2)) = [] then e
        else findModuleEndGo lines fuel (e + 1)
      else e

/-- `_find_module_end` (module_detector.py, 159-178): walk forwards while the
next stripped line is not a boundary match and no double blank line lies
ahead. -/
def findModuleEnd (lines : List (List Char)) (e : Nat) : Nat :=
  findModuleEndGo lines lines.length e

/-- `_extract_module_name` (module_detector.py, 181-208): class name first
(lowercased), then boxed header label (stripped, lowercased, spaces to
underscores), then lowercase function name, then the caller default. -/
def extractModuleName (content : List Char) (dflt : List Char) : List Char :=
  match searchClassName content with
  | some nm => pyStrLower nm
  | none =>
      match searchHeaderLabel content with
      | some lbl => pyReplaceChar ' ' '_' (pyStrLower (pyStrip lbl))
      | none =>
          match searchFuncName content with
          | some fn => fn
          | none => dflt

/-- One candidate module as built by `_create_module_definitions`. -/
structure ModuleRec where
  name : List Char
  start_line : Nat
  end_line : Nat
  content : List Char
deriving DecidableEq, Repr

/-- `f"module_\x7bi\x7d"`. -/
def defaultName (i : Nat) : List Char := "module_".toList ++ (toString i).toList

/-- `_create_module_definitions` (module_detector.py, 106-137).  Groups coming
from the grouping step are never empty; `headD`/`getLastD` with default 0
mirror `group[0]`/`group[-1]` on those inputs. -/
def createModuleDefinitions (grouped : List (List Nat)) (lines : List (List Char)) :
    List ModuleRec :=
  grouped.enum.map (fun p =>
    let s := findModuleStart lines (p.2.headD 0)
    let e := findModuleEnd lines (p.2.getLastD 0)
    let content := List.intercalate ['\n'] ((lines.drop s).take (e + 1 - s))
    { name := extractModuleName content (defaultName p.1),
      start_line := s, end_line := e, content := content })

/-- `detect_module_boundaries` (module_detector.py, 15-40). -/
def detectModuleBoundaries (P : PyParse) (src : List Char) : Except PyErr (List ModuleRec) :=
  let lines := pySplitChar '\n' src
  match pyParseE P src with
  | .error e => .error e
  | .ok tree =>
      match findDefinitionBoundaries tree with
      | .error e => .error e
      | .ok defs =>
          let grouped :=
            groupRelatedBoundaries (dedupSort (findSectionBoundaries lines ++ defs)) 10
          .ok (createModuleDefinitions grouped lines)

/-! ## `analyzer/dependency_analyzer.py` — the dependency graph -/

/-- A directed graph in the fragment of `networkx.DiGraph` the source uses:
insertion-ordered node and edge lists without duplicates (node metadata is
dropped; no claim observes it). -/
structure PyDiGraph where
  nodes : List (List Char)
  edges : List (List Char × List Char)
deriving DecidableEq, Repr

/-- `DiGraph.add_node`. -/
def addNode (g : PyDiGraph) (n : List Char) : PyDiGraph :=
  if n ∈ g.nodes then g else { g with nodes := g.nodes ++ [n] }

/-- `DiGraph.add_edge`: adds missing endpoints, then the edge if absent. -/
def addEdge (g : PyDiGraph) (a b : List Char) : PyDiGraph :=
  if (a, b) ∈ (addNode (addNode g a) b).edges then addNode (addNode g a) b
  else { addNode (addNode g a) b with edges := (addNode (addNode g a) b).edges ++ [(a, b)] }

/-- The inner loop of `build_dependency_graph` (dependency_analyzer.py,
37-46): for each other module (skipping the same index), parse it, extract
its defined names, and add an edge when the reference set intersects them. -/
def bdgInner (P : PyParse) (iIdx : Nat) (iName : List Char) (refs : List String) :
    PyDiGraph → List (Nat × ModuleRec) → Except PyErr PyDiGraph
  | g, [] => .ok g
  | g, (j, mj) :: rest =>
      if iIdx = j then bdgInner P iIdx iName refs g rest
      else
        match pyParseE P mj.content with
        | .error e => .error e
        | .ok tj =>
            if refs.any (fun n => n ∈ extractDefinedNames tj) then
              bdgInner P iIdx iName refs (addEdge g iName mj.name) rest
            else bdgInner P iIdx iName refs g rest

/-- The outer loop of `build_dependency_graph` (dependency_analyzer.py,
30-46). -/
def bdgOuter (P : PyParse) (allMods : List (Nat × ModuleRec)) :
    PyDiGraph → List (Nat × ModuleRec) → Except PyErr PyDiGraph
  | g, [] => .ok g
  | g, (i, mi) :: rest =>
      match pyParseE P mi.content with
      | .error e => .error e
      | .ok ti =>
          match bdgInner P i mi.name (extractReferencedNames ti) g allMods with
          | .error e => .error e
          | .ok g2 => bdgOuter P allMods g2 rest

/-- `build_dependency_graph` (dependency_analyzer.py, 14-48): add one node per
module, then run the quadratic reference/definition comparison.  Every call to
`ast.parse` is unguarded in the source, so a fragment that fails to parse
raises straight through this function. -/
def buildDependencyGraph (P : PyParse) (modules : List ModuleRec) : Except PyErr PyDiGraph :=
  bdgOuter P modules.enum
    (modules.foldl (fun g m => addNode g m.name) { nodes := [], edges := [] }) modules.enum

/-! ## `transformer/import_manager.py` — used-symbol extraction -/

/-- The AST arm of `extract_used_symbols` (import_manager.py, 138-144):
names in load context and callee names of direct calls. -/
def astUsedSymbols (tree : PyTree) : List String :=
  (allExprNodes tree).foldl
    (fun s e =>
      match e with
      | .name id .load => pyInsert s id
      | .call (.name f _) _ => pyInsert s f
      | _ => s)
    []

/-- `extract_used_symbols` (import_manager.py, 125-148): try to parse; on
`SyntaxError` fall back to the regex identifier scan over the raw text. -/
def extractUsedSymbols (P : PyParse) (content : List Char) : Except PyErr (List String) :=
  match pyParseE P content with
  | .ok tree => .ok (astUsedSymbols tree)
  | .error .syntaxError => .ok (identifierFindall content)
  | .error e => .error e

/-! ## `analyzer/semantic_analyzer.py` — purpose and signature extraction -/

/-- Oracle for the standard-library call `ast.get_docstring(node)` (applied by
the source to function and class bodies); not repository code, so modelled as
a parameter of the embedding. -/
abbrev GetDoc := List PyStmt → Option String

/-- One entry of `module["functions"]`. -/
structure FuncInfo where
  name : String
  lineno : Nat
  args : List String
  docstring : String
deriving DecidableEq, Repr

/-- One entry of `module["classes"]`. -/
structure ClassInfo where
  name : String
  lineno : Nat
  methods : List String
  docstring : String
deriving DecidableEq, Repr

/-- `extract_functions` (semantic_analyzer.py, 53-73): top-level function
definitions only (`ast.iter_child_nodes`). -/
def extractFunctions (D : GetDoc) (tree : PyTree) : List FuncInfo :=
  tree.filterMap (fun s =>
    match s with
    | .functionDef n a b l =>
        some { name := n, lineno := l, args := a, docstring := (D b).getD "" }
    | _ => none)

/-- `extract_classes` (semantic_analyzer.py, 76-101): top-level class
definitions with their directly nested function names as methods. -/
def extractClasses (D : GetDoc) (tree : PyTree) : List ClassInfo :=
  tree.filterMap (fun s =>
    match s with
    | .classDef n b l =>
        some { name := n, lineno := l,
               methods := b.filterMap (fun c =>
                 match c with
                 | .functionDef m _ _ _ => some m
                 | _ => none),
               docstring := (D b).getD "" }
    | _ => none)

/-- Modelled from the spec: `MODULE_PURPOSE_INDICATORS` lives in
`core/config.py`, which is not among the provided sources; the table is taken
from the identical `MODULE_PURPOSE_INDICATORS` in `src/analyzer.py` lines
37-43, restated by spec §4.5.  Insertion order of the dict is preserved. -/
def purposeIndicators : List (List Char × List (List Char)) :=
  [("util".toList, ["utility".toList, "helper".toList, "tool".toList, "common".toList]),
   ("model".toList, ["model".toList, "entity".toList, "data class".toList, "schema".toList,
      "structure".toList]),
   ("service".toList, ["service".toList, "manager".toList, "handler".toList,
      "processor".toList]),
   ("controller".toList, ["controller".toList, "view".toList, "endpoint".toList,
      "route".toList]),
   ("config".toList, ["config".toList, "setting".toList, "parameter".toList,
      "environment".toList])]

/-- Python's `sub in s` substring test. -/
def pyContainsSub (sub : List Char) : List Char → Bool
  | [] => sub.isEmpty
  | c :: t => sub.isPrefixOf (c :: t) || pyContainsSub sub t

/-- Helper for `pyCountSub`: `skip` counts characters still covered by the
previous match, which a non-overlapping scan must pass over. -/
def pyCountGo (s0 : Char) (st : List Char) : List Char → Nat → Nat
  | [], _ => 0
  | _ :: t, skip + 1 => pyCountGo s0 st t skip
  | c :: t, 0 =>
      if (s0 :: st).isPrefixOf (c :: t) then 1 + pyCountGo s0 st t st.length
      else pyCountGo s0 st t 0

/-- Python's `s.count(sub)` for non-empty `sub = s0 :: st`: non-overlapping
occurrences scanned from the left. -/
def pyCountSub (s0 : Char) (st : List Char) (l : List Char) : Nat :=
  pyCountGo s0 st l 0

/-- One step of Python's `str.title()`: an alphabetic character is uppercased
after a non-alphabetic position and lowercased otherwise. -/
def pyTitleGo (prevAlpha : Bool) : List Char → List Char
  | [] => []
  | c :: t =>
      (if pyIsAlpha c then (if prevAlpha then pyToLower c else pyToUpper c) else c) ::
        pyTitleGo (pyIsAlpha c) t

/-- `str.title()` (ASCII). -/
def pyTitle (l : List Char) : List Char := pyTitleGo false l

/-- `infer_purpose` (semantic_analyzer.py, 104-127). -/
def inferPurpose (content : List Char) (nm : List Char) : List Char :=
  match purposeIndicators.find?
      (fun pi => pi.2.any (fun ind => pyContainsSub ind (pyStrLower nm))) with
  | some pi => pyTitle pi.1 ++ " module for ".toList ++ pyReplaceChar '_' ' ' nm
  | none =>
      if pyContainsSub "class".toList content && pyContainsSub "def __init__".toList content then
        "Defines the ".toList ++ pyTitle (pyReplaceChar '_' ' ' nm) ++ " entity".toList
      else if 3 < pyCountSub 'd' "ef ".toList content then
        "Provides ".toList ++ pyReplaceChar '_' ' ' nm ++ " functionality".toList
      else "Handles ".toList ++ pyReplaceChar '_' ' ' nm ++ " operations".toList

/-- The first line of a string (`s.split('\n')[0]`). -/
def firstLine (l : List Char) : List Char := (pySplitChar '\n' l).headD []

/-- The purpose/docstring chain of `extract_semantic_purpose`
(semantic_analyzer.py, 32-48): docstring first line, else first
letter-starting comment, else `infer_purpose`. -/
def semPurpose (content : List Char) (nm : List Char) : List Char × Option (List Char) :=
  match searchDocstring content with
  | some d =>
      let ds := pyStrip d
      (pyStrip (firstLine ds), some ds)
  | none =>
      match searchComment content with
      | some cm => (pyStrip cm, none)
      | none => (inferPurpose content nm, none)

/-- A module dict after the semantic stage added `functions`, `classes`,
`purpose` and (in the docstring branch) `docstring`. -/
structure SemModule where
  name : List Char
  start_line : Nat
  end_line : Nat
  content : List Char
  functions : List FuncInfo
  classes : List ClassInfo
  purpose : List Char
  docstring : Option (List Char)
deriving DecidableEq, Repr

/-- `extract_semantic_purpose` (semantic_analyzer.py, 15-50): each module's
content is parsed (unguarded — a parse failure raises), signatures are
extracted, then the purpose chain fills `purpose`/`docstring`. -/
def extractSemanticPurpose (P : PyParse) (D : GetDoc) :
    List ModuleRec → Except PyErr (List SemModule)
  | [] => .ok []
  | m :: rest =>
      match pyParseE P m.content with
      | .error e => .error e
      | .ok tree =>
          let fns := extractFunctions D tree
          let cls := extractClasses D tree
          let pd := semPurpose m.content m.name
          match extractSemanticPurpose P D rest with
          | .error e => .error e
          | .ok others =>
              .ok ({ name := m.name, start_line := m.start_line, end_line := m.end_line,
                     content := m.content, functions := fns, classes := cls,
                     purpose := pd.1, docstring := pd.2 } :: others)

/-! ## `core/utils.py` — case conversion -/

/-- `re.sub(r'([A-Z])', r'_\1', text)`: an underscore before every uppercase
letter. -/
def subUpper : List Char → List Char
  | [] => []
  | c :: t => if pyIsUpper c then '_' :: c :: subUpper t else c :: subUpper t

/-- Helper for `collapseRuns`: `inRun` records whether the previous character
belonged to the class (the replacement has already been emitted). -/
def collapseGo (p : Char → Bool) (rep : Char) (inRun : Bool) : List Char → List Char
  | [] => []
  | c :: t =>
      if p c then
        if inRun then collapseGo p rep true t else rep :: collapseGo p rep true t
      else c :: collapseGo p rep false t

/-- `re.sub(r'[X]+', 'r', s)` for a character class: each maximal run of
class characters becomes the single replacement character. -/
def collapseRuns (p : Char → Bool) (rep : Char) (l : List Char) : List Char :=
  collapseGo p rep false l

/-- The class `[ \-]` of `re.sub(r'[ \-]+', '_', s)`. -/
def isSpaceHyphen (c : Char) : Bool := c = ' ' || c = '-'

/-- The class `[_]` of `re.sub(r'_+', '_', s)`. -/
def isUnderscore (c : Char) : Bool := c = '_'

/-- `to_snake_case` (core/utils.py, 16-30). -/
def to_snake_case (text : List Char) : List Char :=
  pyStrLower (pyStripUnderscore
    (collapseRuns isUnderscore '_' (collapseRuns isSpaceHyphen '_' (subUpper text))))

/-- Python `str.capitalize()`: first character uppercased, the rest
lowercased. -/
def pyCapitalize : List Char → List Char
  | [] => []
  | c :: t => pyToUpper c :: t.map pyToLower

/-- `to_pascal_case` (core/utils.py, 33-45): normalise through
`to_snake_case`, split on underscores, capitalise each word, join. -/
def to_pascal_case (text : List Char) : List Char :=
  ((pySplitChar '_' (to_snake_case text)).map pyCapitalize).flatten

/-! ## Concrete fixtures

Each `PyParse` fixture maps a concrete source text to its CPython parse
(checkable by hand) and every other text to `none`. -/

/-- `"x = 1"`: no divider comment, no definition — zero boundaries. -/
def srcNoBoundary : List Char := "x = 1".toList

/-- CPython parse of `srcNoBoundary`. -/
def treeNoBoundary : PyTree := [.assign [.name "x" .store] (.constInt 1) 1]

/-- Parse oracle for `srcNoBoundary`. -/
def parseNoBoundary : PyParse := fun t => if t = srcNoBoundary then some treeNoBoundary else none

/-- `"def foo():\n    pass"`: one public top-level definition. -/
def srcFoo : List Char := "def foo():\n    pass".toList

/-- CPython parse of `srcFoo`. -/
def treeFoo : PyTree := [.functionDef "foo" [] [.pass 2] 1]

/-- Parse oracle for `srcFoo`. -/
def parseFoo : PyParse := fun t => if t = srcFoo then some treeFoo else none

/-! ## Claim C1 — zero boundaries -/

/-- C1 counterexample: on the one-line source `"x = 1"` (no divider line, no
top-level public definition, hence zero detected boundaries) boundary
detection returns the empty module list, not one `CandidateModule` spanning
the whole file: there is no whole-file fallback in the code. -/
theorem c1_counterexample :
    detectModuleBoundaries parseNoBoundary srcNoBoundary = .ok [] ∧
    detectModuleBoundaries parseNoBoundary srcNoBoundary ≠
      .ok [⟨"module_0".toList, 0, 0, srcNoBoundary⟩] := by
  constructor
  · rfl
  · intro h
    rw [show detectModuleBoundaries parseNoBoundary srcNoBoundary = .ok [] from rfl] at h
    simp at h

/-- C1 (amended): for every source whose comment-divider scan finds no line
and whose definition scan returns no boundary, `detect_module_boundaries`
returns the empty module list (zero modules, not one whole-file module). -/
theorem c1_zero_boundaries_empty (P : PyParse) (src : List Char) (tree : PyTree)
    (hp : P src = some tree)
    (hs : findSectionBoundaries (pySplitChar '\n' src) = [])
    (hd : findDefinitionBoundaries tree = .ok []) :
    detectModuleBoundaries P src = .ok [] := by
  simp [detectModuleBoundaries, pyParseE, hp, hs, hd, dedupSort, groupRelatedBoundaries,
    groupGo, createModuleDefinitions]

/-- C1 witness: the amended theorem applied to the concrete zero-boundary
source. -/
theorem c1_witness : detectModuleBoundaries parseNoBoundary srcNoBoundary = .ok [] :=
  c1_zero_boundaries_empty parseNoBoundary srcNoBoundary treeNoBoundary rfl (by decide) rfl

/-! ## Claim C3 — the definition scan -/

/-- C3: the definition scan does not behave as specified — on the parseable
source `"def foo():\n    pass"` (one public top-level definition, so the
claimed result is the boundary set containing `lineno - 1 = 0`) the walk
reaches the top-level test and raises `AttributeError`, because
`ast.iter_ancestors` does not exist (and the legacy `node.parent` variant
reads a nonexistent attribute likewise); the error propagates out of
`detect_module_boundaries`, aborting detection. -/
theorem c3_definition_scan_crashes :
    findDefinitionBoundaries treeFoo = .error .attributeError ∧
    detectModuleBoundaries parseFoo srcFoo = .error .attributeError := by
  exact ⟨rfl, rfl⟩

/-! ## Claim C6 — boundary grouping -/

/-- C6: walking the boundary list with a nonempty current group, the grouping
loop starts a new group exactly when the gap to the previous boundary is at
least 10 and extends the current group otherwise; on `[2, 5, 20, 22]` it
yields `[[2, 5], [20, 22]]`. -/
theorem c6_grouping_step_and_example :
    (∀ (b : Nat) (bs : List Nat) (grouped : List (List Nat)) (cur : List Nat) (last : Nat),
      cur.getLast? = some last →
      groupGo 10 (b :: bs) grouped cur =
        if b - last < 10 then groupGo 10 bs grouped (cur ++ [b])
        else groupGo 10 bs (grouped ++ [cur]) [b]) ∧
    groupRelatedBoundaries [2, 5, 20, 22] 10 = [[2, 5], [20, 22]] := by
  constructor
  · intro b bs grouped cur last h
    have hne : cur ≠ [] := by
      intro hc
      rw [hc] at h
      simp at h
    have hl : cur.getLastD 0 = last := by
      rw [List.getLastD_eq_getLast?, h]
      rfl
    conv_lhs => rw [groupGo]
    rw [hl]
    by_cases hlt : b - last < 10
    · rw [if_pos hlt, if_pos (Or.inr hlt)]
    · rw [if_neg hlt, if_neg (fun hc => hc.elim hne hlt)]
  · decide

/-- C6 witness: the grouping step applied at the concrete state reached on
`[2, 5, 20, 22]` when `20` follows the group `[2, 5]` (gap 15 ≥ 10). -/
theorem c6_witness :
    groupGo 10 (20 :: [22]) [] [2, 5] =
      if 20 - 5 < 10 then groupGo 10 [22] [] ([2, 5] ++ [20])
      else groupGo 10 [22] ([] ++ [[2, 5]]) [20] :=
  c6_grouping_step_and_example.1 20 [22] [] [2, 5] 5 (by decide)

/-! ## Claim C7 — module-name extraction priority -/

/-- C7: `_extract_module_name` tries the class-name rule first, so whenever
the class regex finds a group the result is that group lowercased, whatever
the header or function rules would say; in particular content containing both
`class Foo` and a boxed header labeled `Widgets` yields `"foo"`. -/
theorem c7_name_priority :
    (∀ (content dflt nm : List Char), searchClassName content = some nm →
      extractModuleName content dflt = pyStrLower nm) ∧
    extractModuleName ("class Foo:\n    pass\n# ╭ Widgets ╮".toList)
      ("module_0".toList) = "foo".toList := by
  constructor
  · intro content dflt nm h
    simp [extractModuleName, h]
  · decide

/-- C7 witness: the priority rule applied to the concrete content with both a
class and a boxed header. -/
theorem c7_witness :
    extractModuleName ("class Foo:\n    pass\n# ╭ Widgets ╮".toList) ("m".toList) =
      pyStrLower "Foo".toList :=
  c7_name_priority.1 _ _ ("Foo".toList) (by decide)

/-! ## Claim C9 — totality of `extract_used_symbols` -/

/-- C9: `extract_used_symbols` never raises: for every parse outcome it
returns a set — the Name-loads and direct-call callee names when the text
parses, and the regex identifier set of the raw text on a `SyntaxError`
(here on the dangling fragment `"else:"`). -/
theorem c9_used_symbols_total :
    (∀ (P : PyParse) (content : List Char),
      extractUsedSymbols P content =
        .ok (match P content with
             | some tree => astUsedSymbols tree
             | none => identifierFindall content)) ∧
    extractUsedSymbols (fun _ => none) ("else:".toList) = .ok ["else"] := by
  constructor
  · intro P content
    cases h : P content <;> simp [extractUsedSymbols, pyParseE, h]
  · rfl

/-! ## Claim C5 — the import symbol table -/

/-- `dictLookup` on the empty table. -/
theorem dictLookup_nil (k : String) : dictLookup [] k = none := rfl

/-- `dictLookup` on a cons cell. -/
theorem dictLookup_cons (k0 : String) (v0 : SymEntry) (rest : SymTable) (k : String) :
    dictLookup ((k0, v0) :: rest) k = if k0 = k then some v0 else dictLookup rest k := by
  by_cases h : k0 = k
  · rw [dictLookup, List.find?_cons_of_pos _ (by simpa using h), if_pos h]
    rfl
  · rw [dictLookup, List.find?_cons_of_neg _ (by simpa using h), if_neg h]
    rfl

/-- Looking a key up after an insertion: the inserted value for that key,
the previous table otherwise. -/
theorem dictLookup_dictInsert (t : SymTable) (k k0 : String) (v : SymEntry) :
    dictLookup (dictInsert t k v) k0 = if k0 = k then some v else dictLookup t k0 := by
  induction t with
  | nil =>
      by_cases h : k0 = k
      · subst h
        simp [dictInsert, dictLookup_cons]
      · simp [dictInsert, dictLookup_cons, dictLookup_nil, h, Ne.symm h]
  | cons p rest ih =>
      obtain ⟨k1, v1⟩ := p
      by_cases h1 : k1 = k
      · subst h1
        by_cases h0 : k0 = k1
        · subst h0
          simp [dictInsert, dictLookup_cons]
        · simp [dictInsert, dictLookup_cons, h0, Ne.symm h0]
      · rw [show dictInsert ((k1, v1) :: rest) k v = (k1, v1) :: dictInsert rest k v from by
             simp [dictInsert, h1], dictLookup_cons]
        by_cases h0 : k1 = k0
        · have hk0 : ¬k0 = k := fun hh => h1 (h0.trans hh)
          simp [h0, hk0, dictLookup_cons]
        · simp [h0, ih, dictLookup_cons]

/-- A fold of per-element inner folds is the fold over the flattened list. -/
theorem foldl_flatMap {α β τ : Type} (g : τ → β → τ) (f : α → List β) (l : List α) (t0 : τ) :
    l.foldl (fun t a => (f a).foldl g t) t0 = (l.flatMap f).foldl g t0 := by
  induction l generalizing t0 with
  | nil => rfl
  | cons a t ih => simp [List.flatMap_cons, List.foldl_append, ih]

/-- All import bindings contributed by a tree, in walk order. -/
def allImportBindings (tree : PyTree) : List (String × SymEntry) :=
  (stmtListNodes tree).flatMap importEntries

/-- `analyze_imports` is the insertion fold over the walk's bindings. -/
theorem analyzeImports_eq (tree : PyTree) :
    analyzeImports tree =
      (allImportBindings tree).foldl (fun t kv => dictInsert t kv.1 kv.2) [] :=
  foldl_flatMap _ _ _ _

/-- Folding insertions: a key's final value is the last binding for it, and an
unbound key falls through to the initial table. -/
theorem dictLookup_foldl (bs : List (String × SymEntry)) (t0 : SymTable) (k : String) :
    dictLookup (bs.foldl (fun t kv => dictInsert t kv.1 kv.2) t0) k =
      (match bs.reverse.find? (fun kv => kv.1 == k) with
       | some kv => some kv.2
       | none => dictLookup t0 k) := by
  induction bs generalizing t0 with
  | nil => simp
  | cons kv rest ih =>
      rw [List.foldl_cons, ih, List.reverse_cons, List.find?_append]
      cases hf : rest.reverse.find? (fun p => p.1 == k) with
      | some p => simp [Option.or]
      | none =>
          rw [dictLookup_dictInsert]
          by_cases hk : kv.1 = k
          · rw [List.find?_cons_of_pos _ (by simpa using hk)]
            simp [Option.or, hk]
          · rw [List.find?_cons_of_neg _ (by simpa using hk), if_neg (fun hh => hk hh.symm)]
            simp [Option.or]

/-- C5: on `"import os\nfrom json import dumps as d"` the symbol table is
exactly the two claimed entries keyed by effective local name, and in
general a key's entry is the last import binding for that local name in walk
order — later imports of the same local name overwrite earlier ones. -/
theorem c5_import_symbol_table :
    analyzeImports [.imp [("os", none)] 1, .impFrom (some "json") [("dumps", some "d")] 2] =
      [("os", .entryImp "os" none 1), ("d", .entryFrom (some "json") "dumps" (some "d") 2)] ∧
    (∀ (tree : PyTree) (k : String),
      dictLookup (analyzeImports tree) k =
        ((allImportBindings tree).reverse.find? (fun kv => kv.1 == k)).map (·.2)) := by
  constructor
  · rfl
  · intro tree k
    rw [analyzeImports_eq, dictLookup_foldl]
    cases hf : (allImportBindings tree).reverse.find? (fun kv => kv.1 == k) <;>
      simp [dictLookup_nil]

/-! ## Claim C2 — parse failures inside the dependency grapher -/

/-- The all-failing parse oracle (every fragment raises `SyntaxError`). -/
def parseNone : PyParse := fun _ => none

/-- A module whose content `"else:"` fails to parse in isolation. -/
def badModule : ModuleRec := ⟨"a".toList, 0, 0, "else:".toList⟩

/-- A module whose content parses (`"x = 1"`). -/
def goodModule : ModuleRec := ⟨"g".toList, 0, 0, srcNoBoundary⟩

/-- If the inner comparison loop still has to visit a module of a different
index whose content fails to parse, it raises `SyntaxError`. -/
theorem bdgInner_error (P : PyParse) (iIdx : Nat) (iName : List Char) (refs : List String)
    (l : List (Nat × ModuleRec)) (j : Nat) (mj : ModuleRec) (g : PyDiGraph)
    (hj : (j, mj) ∈ l) (hne : iIdx ≠ j) (hp : P mj.content = none) :
    bdgInner P iIdx iName refs g l = .error .syntaxError := by
  revert g hj
  induction l with
  | nil =>
      intro g hj
      simp at hj
  | cons hd rest ih =>
      intro g hj
      obtain ⟨j0, m0⟩ := hd
      rcases List.mem_cons.mp hj with heq | hmem
      · cases heq
        simp only [bdgInner, if_neg hne, pyParseE, hp]
      · by_cases hij : iIdx = j0
        · simp only [bdgInner, if_pos hij]
          exact ih g hmem
        · cases hpc : P m0.content with
          | none => simp only [bdgInner, if_neg hij, pyParseE, hpc]
          | some t0 =>
              simp only [bdgInner, if_neg hij, pyParseE, hpc]
              by_cases hany : refs.any (fun n => n ∈ extractDefinedNames t0)
              · rw [if_pos hany]
                exact ih _ hmem
              · rw [if_neg hany]
                exact ih g hmem

/-- C2 (amended): a module fragment that fails to parse in isolation makes
`build_dependency_graph` raise `SyntaxError` — the unguarded `ast.parse`
aborts the run instead of degrading the name sets. -/
theorem c2_parse_failure_raises (P : PyParse) (modules : List ModuleRec) (m : ModuleRec)
    (hm : m ∈ modules) (hp : P m.content = none) :
    buildDependencyGraph P modules = .error .syntaxError := by
  cases modules with
  | nil => simp at hm
  | cons m0 rest =>
      unfold buildDependencyGraph
      rw [List.enum_cons]
      cases hp0 : P m0.content with
      | none => simp only [bdgOuter, pyParseE, hp0]
      | some t0 =>
          simp only [bdgOuter, pyParseE, hp0]
          have hmem : m ∈ rest := by
            rcases List.mem_cons.mp hm with h0 | h0
            · subst h0
              rw [hp] at hp0
              cases hp0
            · exact h0
          obtain ⟨i, hi, hget⟩ := List.mem_iff_getElem.mp hmem
          have henum : (1 + i, m) ∈ ((0, m0) :: rest.enumFrom 1) := by
            refine List.mem_cons.mpr (Or.inr ?_)
            refine (List.mk_add_mem_enumFrom_iff_get?).mpr ?_
            rw [List.get?_eq_getElem?, List.getElem?_eq_getElem hi, hget]
          rw [bdgInner_error P 0 m0.name (extractReferencedNames t0) _ (1 + i) m _
            henum (by omega) hp]

/-- C2 counterexample: on the one-module list whose content is the dangling
fragment `"else:"`, `build_dependency_graph` raises `SyntaxError` (the claim
says the surrounding analysis never aborts on a bad fragment). -/
theorem c2_counterexample :
    buildDependencyGraph parseNone [badModule] = .error .syntaxError := rfl

/-- C2 witness: the amended theorem applied to a two-module list whose second
module is the bad fragment (the failure surfaces from the inner comparison
loop). -/
theorem c2_witness :
    buildDependencyGraph parseNoBoundary [goodModule, badModule] = .error .syntaxError :=
  c2_parse_failure_raises parseNoBoundary [goodModule, badModule] badModule
    (by simp) rfl

/-! ## Claim C4 — self-edges in the dependency graph -/

/-- `add_node` never changes the edge list. -/
theorem addNode_edges (g : PyDiGraph) (n : List Char) : (addNode g n).edges = g.edges := by
  unfold addNode
  split <;> rfl

/-- The edge list after `add_edge`: unchanged or extended by the new edge. -/
theorem addEdge_edges (g : PyDiGraph) (a b : List Char) :
    (addEdge g a b).edges = g.edges ∨ (addEdge g a b).edges = g.edges ++ [(a, b)] := by
  unfold addEdge
  split
  · left
    rw [addNode_edges, addNode_edges]
  · right
    show (addNode (addNode g a) b).edges ++ [(a, b)] = g.edges ++ [(a, b)]
    rw [addNode_edges, addNode_edges]

/-- `add_edge` with distinct endpoints preserves freedom from self-loops. -/
theorem addEdge_no_self (g : PyDiGraph) (a b : List Char)
    (hg : ∀ x, (x, x) ∉ g.edges) (hab : a ≠ b) :
    ∀ x, (x, x) ∉ (addEdge g a b).edges := by
  intro x hx
  rcases addEdge_edges g a b with he | he <;> rw [he] at hx
  · exact hg x hx
  · rcases List.mem_append.mp hx with hx2 | hx2
    · exact hg x hx2
    · rw [List.mem_singleton] at hx2
      obtain ⟨h1, h2⟩ := Prod.mk.injEq .. ▸ hx2
      exact hab (h1.symm.trans h2)

/-- Adding nodes never adds edges. -/
theorem foldl_addNode_edges (ms : List ModuleRec) (g : PyDiGraph) :
    (ms.foldl (fun g m => addNode g m.name) g).edges = g.edges := by
  induction ms generalizing g with
  | nil => rfl
  | cons m rest ih => rw [List.foldl_cons, ih, addNode_edges]

/-- The inner loop only adds edges from `iName` to names of modules at other
indices; if every such name differs from `iName`, no self-loop appears. -/
theorem bdgInner_no_self (P : PyParse) (iIdx : Nat) (iName : List Char) (refs : List String)
    (l : List (Nat × ModuleRec)) (g gOut : PyDiGraph)
    (hok : bdgInner P iIdx iName refs g l = .ok gOut)
    (hg : ∀ x, (x, x) ∉ g.edges)
    (hl : ∀ jm ∈ l, iIdx = jm.1 ∨ iName ≠ jm.2.name) :
    ∀ x, (x, x) ∉ gOut.edges := by
  revert g hok
  induction l with
  | nil =>
      intro g hok hg
      cases hok
      exact hg
  | cons hd rest ih =>
      intro g hok hg
      obtain ⟨j0, m0⟩ := hd
      by_cases hij : iIdx = j0
      · simp only [bdgInner, if_pos hij] at hok
        exact ih (fun jm hjm => hl jm (List.mem_cons_of_mem _ hjm)) g hok hg
      · cases hpc : P m0.content with
        | none => simp [bdgInner, if_neg hij, pyParseE, hpc] at hok
        | some t0 =>
            simp only [bdgInner, if_neg hij, pyParseE, hpc] at hok
            have hne : iName ≠ m0.name := by
              rcases hl (j0, m0) (List.mem_cons_self _ _) with h | h
              · exact absurd h hij
              · exact h
            by_cases hany : refs.any (fun n => n ∈ extractDefinedNames t0)
            · rw [if_pos hany] at hok
              exact ih (fun jm hjm => hl jm (List.mem_cons_of_mem _ hjm)) _ hok
                (addEdge_no_self g iName m0.name hg hne)
            · rw [if_neg hany] at hok
              exact ih (fun jm hjm => hl jm (List.mem_cons_of_mem _ hjm)) g hok hg

/-- The outer loop preserves freedom from self-loops whenever equal module
names only occur at equal indices. -/
theorem bdgOuter_no_self (P : PyParse) (allMods : List (Nat × ModuleRec))
    (l : List (Nat × ModuleRec)) (g gOut : PyDiGraph)
    (hok : bdgOuter P allMods g l = .ok gOut)
    (hg : ∀ x, (x, x) ∉ g.edges)
    (hl : ∀ im ∈ l, ∀ jm ∈ allMods, im.1 = jm.1 ∨ im.2.name ≠ jm.2.name) :
    ∀ x, (x, x) ∉ gOut.edges := by
  revert g hok
  induction l with
  | nil =>
      intro g hok hg
      cases hok
      exact hg
  | cons hd rest ih =>
      intro g hok hg
      obtain ⟨i, mi⟩ := hd
      cases hpc : P mi.content with
      | none => simp [bdgOuter, pyParseE, hpc] at hok
      | some ti =>
          simp only [bdgOuter, pyParseE, hpc] at hok
          cases hin : bdgInner P i mi.name (extractReferencedNames ti) g allMods with
          | error e => rw [hin] at hok; cases hok
          | ok g2 =>
              rw [hin] at hok
              exact ih (fun im him => hl im (List.mem_cons_of_mem _ him)) g2 hok
                (bdgInner_no_self P i mi.name _ allMods g g2 hin hg
                  (hl (i, mi) (List.mem_cons_self _ _)))

/-- C4 (amended): when the candidate modules carry pairwise-distinct names,
the dependency graph contains no self-edge — the `i == j` guard skips the
only pairs that could produce one. -/
theorem c4_no_self_edge (P : PyParse) (modules : List ModuleRec) (g : PyDiGraph)
    (a : List Char)
    (hnames : (modules.map (fun m => m.name)).Nodup)
    (hok : buildDependencyGraph P modules = .ok g) :
    (a, a) ∉ g.edges := by
  unfold buildDependencyGraph at hok
  refine bdgOuter_no_self P modules.enum modules.enum _ g hok
    (by rw [foldl_addNode_edges]; intro x hx; simp at hx) ?_ a
  intro im him jm hjm
  by_cases hij : im.1 = jm.1
  · exact Or.inl hij
  · refine Or.inr ?_
    have hi := List.mem_enum_iff_get?.mp him
    have hj := List.mem_enum_iff_get?.mp hjm
    rw [List.get?_eq_getElem?] at hi hj
    have hilt : im.1 < modules.length := (List.getElem?_eq_some_iff.mp hi).1
    intro hname
    apply hij
    refine List.getElem?_inj ?_ hnames ?_
    · simpa using hilt
    · rw [List.getElem?_map, List.getElem?_map, hi, hj]
      simp [hname]

/-- Parse oracle for the duplicate-name counterexample: `"x = helper(1)"` and
`"def helper(a):\n    return a"` with their CPython parses. -/
def parseDup : PyParse := fun t =>
  if t = "x = helper(1)".toList then
    some [.assign [.name "x" .store] (.call (.name "helper" .load) [.constInt 1]) 1]
  else if t = "def helper(a):\n    return a".toList then
    some [.functionDef "helper" ["a"] [.ret (some (.name "a" .load)) 2] 1]
  else none

/-- Two distinct candidate modules that independently resolved to the same
derived name `"foo"`. -/
def dupModules : List ModuleRec :=
  [⟨"foo".toList, 0, 0, "x = helper(1)".toList⟩,
   ⟨"foo".toList, 2, 3, "def helper(a):\n    return a".toList⟩]

/-- C4 counterexample: with two distinct modules of the same derived name, the
first referencing a name the second defines, the graph contains the self-edge
`foo → foo` — exactly the case the claim excludes. -/
theorem c4_counterexample :
    buildDependencyGraph parseDup dupModules =
      .ok ⟨["foo".toList], [("foo".toList, "foo".toList)]⟩ ∧
    ("foo".toList, "foo".toList) ∈ [("foo".toList, "foo".toList)] := by
  exact ⟨rfl, List.mem_singleton_self _⟩

/-- Modules as in the counterexample but with distinct names. -/
def distinctModules : List ModuleRec :=
  [⟨"a".toList, 0, 0, "x = helper(1)".toList⟩,
   ⟨"b".toList, 2, 3, "def helper(a):\n    return a".toList⟩]

/-- C4 witness: the amended theorem applied to the same pair of modules under
distinct names — the resulting graph has no self-edge at `"a"`. -/
theorem c4_witness :
    ("a".toList, "a".toList) ∉
      (PyDiGraph.mk ["a".toList, "b".toList] [("a".toList, "b".toList)]).edges :=
  c4_no_self_edge parseDup distinctModules _ ("a".toList) (by decide) rfl

/-! ## Claim C8 — non-emptiness of the inferred purpose -/

/-- A property of the group holding at every anchored match holds at every
scanned match. -/
theorem searchScan_prop {Q : List Char → Prop} (f : List Char → Option (List Char))
    (hf : ∀ l r, f l = some r → Q r) :
    ∀ l r, searchScan f l = some r → Q r := by
  intro l
  induction l with
  | nil => exact fun r h => hf [] r h
  | cons c t ih =>
      intro r h
      unfold searchScan at h
      cases hfc : f (c :: t) with
      | some r0 =>
          rw [hfc] at h
          cases h
          exact hf _ _ hfc
      | none =>
          rw [hfc] at h
          exact ih r h

/-- The comment regex group always starts with a letter. -/
theorem commentAt_alpha (l r : List Char) (h : commentAt l = some r) :
    ∃ c t, r = c :: t ∧ pyIsAlpha c = true := by
  unfold commentAt at h
  split at h
  · split at h
    · cases h
      rename_i c t halpha
      exact ⟨c, _, rfl, halpha⟩
    · cases h
  · cases h

/-- A letter is not whitespace. -/
theorem alpha_not_space (c : Char) (h : pyIsAlpha c = true) : pyIsSpace c = false := by
  have hn : (65 ≤ c.toNat ∧ c.toNat ≤ 90) ∨ (97 ≤ c.toNat ∧ c.toNat ≤ 122) := by
    simpa [pyIsAlpha, pyIsUpper, pyIsLower, Bool.or_eq_true, Bool.and_eq_true,
      decide_eq_true_eq] using h
  rw [Bool.eq_false_iff]
  intro hsp
  have hs : ((((c.toNat = 32 ∨ c.toNat = 9) ∨ c.toNat = 10) ∨ c.toNat = 13) ∨ c.toNat = 11) ∨
      c.toNat = 12 := by
    simpa [pyIsSpace, Bool.or_eq_true, decide_eq_true_eq] using hsp
  rcases hn with ⟨h2, h3⟩ | ⟨h2, h3⟩ <;>
    rcases hs with ((((h1 | h1) | h1) | h1) | h1) | h1 <;> omega

/-- Stripping a string whose first character is not whitespace never empties
it. -/
theorem pyStrip_cons_ne_nil (c : Char) (t : List Char) (hc : pyIsSpace c = false) :
    pyStrip (c :: t) ≠ [] := by
  unfold pyStrip
  rw [List.dropWhile_cons_of_neg (by simp [hc])]
  intro h
  rw [List.reverse_eq_nil_iff, List.dropWhile_eq_nil_iff] at h
  have := h c (by simp)
  rw [hc] at this
  cases this

/-- A three-part concatenation with a non-empty first part is non-empty. -/
theorem append2_ne_nil_left (A B C : List Char) (hA : A ≠ []) : A ++ B ++ C ≠ [] := by
  intro h
  rw [List.append_eq_nil, List.append_eq_nil] at h
  exact hA h.1.1

/-- A three-part concatenation with a non-empty middle part is non-empty. -/
theorem append2_ne_nil_mid (A B C : List Char) (hB : B ≠ []) : A ++ B ++ C ≠ [] := by
  intro h
  rw [List.append_eq_nil, List.append_eq_nil] at h
  exact hB h.1.2

/-- Every branch of `infer_purpose` emits a non-empty message. -/
theorem inferPurpose_ne_nil (content nm : List Char) : inferPurpose content nm ≠ [] := by
  unfold inferPurpose
  split
  · exact append2_ne_nil_mid _ (" module for ".toList) _ (by decide)
  · split
    · exact append2_ne_nil_left ("Defines the ".toList) _ _ (by decide)
    · split
      · exact append2_ne_nil_left ("Provides ".toList) _ _ (by decide)
      · exact append2_ne_nil_left ("Handles ".toList) _ _ (by decide)

/-- C8 (amended): after the semantic stage, every module's `purpose` is
non-empty provided no module content carries a docstring match whose stripped
first line is blank; a blank leading docstring produces an empty purpose (see
the counterexample). -/
theorem c8_purpose_nonempty (P : PyParse) (D : GetDoc) (modules : List ModuleRec)
    (res : List SemModule) (e : SemModule)
    (hok : extractSemanticPurpose P D modules = .ok res)
    (hblank : ∀ m ∈ modules, ∀ d, searchDocstring m.content = some d →
        pyStrip (firstLine (pyStrip d)) ≠ [])
    (he : e ∈ res) :
    e.purpose ≠ [] := by
  revert res
  revert hblank
  induction modules with
  | nil =>
      intro hblank res hok he
      simp only [extractSemanticPurpose] at hok
      cases hok
      simp at he
  | cons m rest ih =>
      intro hblank res hok he
      simp only [extractSemanticPurpose] at hok
      cases hpc : P m.content with
      | none => simp [pyParseE, hpc] at hok
      | some tree =>
          simp only [pyParseE, hpc] at hok
          cases hrest : extractSemanticPurpose P D rest with
          | error e2 =>
              rw [hrest] at hok
              cases hok
          | ok others =>
              rw [hrest] at hok
              cases hok
              rcases List.mem_cons.mp he with he1 | he2
              · subst he1
                show (semPurpose m.content m.name).1 ≠ []
                unfold semPurpose
                cases hd : searchDocstring m.content with
                | some d =>
                    simp only [hd]
                    exact hblank m (List.mem_cons_self _ _) d hd
                | none =>
                    simp only [hd]
                    cases hc : searchComment m.content with
                    | some cm =>
                        simp only [hc]
                        obtain ⟨c0, t0, hr, ha⟩ :=
                          searchScan_prop commentAt commentAt_alpha m.content cm hc
                        rw [hr]
                        exact pyStrip_cons_ne_nil c0 t0 (alpha_not_space c0 ha)
                    | none =>
                        simp only [hc]
                        exact inferPurpose_ne_nil _ _
              · exact ih (fun m2 hm2 => hblank m2 (List.mem_cons_of_mem _ hm2)) others
                  hrest he2

/-- The module whose content is the blank docstring `""" """`. -/
def blankDocModule : ModuleRec := ⟨"m".toList, 0, 0, "\"\"\" \"\"\"".toList⟩

/-- Parse oracle for `blankDocModule` (an expression statement holding the
string constant `" "`). -/
def parseBlankDoc : PyParse := fun t =>
  if t = "\"\"\" \"\"\"".toList then some [.exprStmt (.constStr " ") 1] else none

/-- `ast.get_docstring` oracle for fixtures with no function or class
bodies. -/
def getDocNone : GetDoc := fun _ => none

/-- C8 counterexample: a module whose content is the blank docstring
`""" """` comes out of the semantic stage with `purpose = ""` — an empty
string, contradicting the claim for this input module list. -/
theorem c8_counterexample :
    extractSemanticPurpose parseBlankDoc getDocNone [blankDocModule] =
      .ok [⟨"m".toList, 0, 0, "\"\"\" \"\"\"".toList, [], [], [], some []⟩] ∧
    (⟨"m".toList, 0, 0, "\"\"\" \"\"\"".toList, [], [], [], some []⟩ : SemModule).purpose = [] :=
  ⟨rfl, rfl⟩

/-- A module led by a comment line (no docstring). -/
def commentModule : ModuleRec := ⟨"m".toList, 0, 0, "# hello\nx = 1".toList⟩

/-- Parse oracle for `commentModule`. -/
def parseComment : PyParse := fun t =>
  if t = "# hello\nx = 1".toList then some [.assign [.name "x" .store] (.constInt 1) 2]
  else none

/-- C8 witness: the amended theorem applied to the concrete comment-led
module, whose extracted purpose `"hello"` is non-empty. -/
theorem c8_witness :
    (⟨"m".toList, 0, 0, "# hello\nx = 1".toList, [], [], "hello".toList, none⟩ :
      SemModule).purpose ≠ [] :=
  c8_purpose_nonempty parseComment getDocNone [commentModule] _ _ rfl
    (by
      intro m hm d hd
      rw [List.mem_singleton] at hm
      subst hm
      rw [show searchDocstring commentModule.content = none from rfl] at hd
      exact Option.noConfusion hd)
    (List.mem_singleton_self _)

/-! ## Claim C10 — case-conversion round trip

The claim quantifies over snake_case strings: one or more underscore-joined
words, each a lowercase letter followed by lowercase letters or digits. -/

/-- A character allowed after the first position of a word. -/
def wordTailChar (c : Char) : Bool := pyIsLower c || pyIsDigit c

/-- One grammar word: a lowercase letter followed by lowercase letters or
digits. -/
def isLowerWord : List Char → Bool
  | [] => false
  | c :: t => pyIsLower c && t.all wordTailChar

/-- The underscore-joined form of a word list (the grammar's strings). -/
def joinWords : List (List Char) → List Char
  | [] => []
  | [w] => w
  | w :: ws => w ++ '_' :: joinWords ws

/-- `Char.toNat` is injective. -/
theorem charToNatInj (a b : Char) (h : a.toNat = b.toNat) : a = b := by
  apply Char.eq_of_val_eq
  apply UInt32.eq_of_toBitVec_eq
  apply BitVec.eq_of_toNat_eq
  exact h

/-- `Char.ofNat` inverts `toNat` below the surrogate range. -/
theorem charOfNatToNat (n : Nat) (h : n < 55296) : (Char.ofNat n).toNat = n := by
  unfold Char.ofNat
  split
  · simp [Char.toNat, Char.ofNatAux, UInt32.toNat, BitVec.toNat_ofNatLt]
  · rename_i hv
    exact absurd (Or.inl (by omega)) hv

/-- Characters with distinct codes are distinct. -/
theorem char_ne_of_toNat_ne (c d : Char) (h : c.toNat ≠ d.toNat) : c ≠ d :=
  fun he => h (congrArg Char.toNat he)

/-- A word-tail character is in the digit or lowercase ASCII range. -/
theorem wordTailChar_range (c : Char) (h : wordTailChar c = true) :
    (48 ≤ c.toNat ∧ c.toNat ≤ 57) ∨ (97 ≤ c.toNat ∧ c.toNat ≤ 122) := by
  have := by
    simpa [wordTailChar, pyIsLower, pyIsDigit, Bool.or_eq_true, Bool.and_eq_true,
      decide_eq_true_eq] using h
  tauto

/-- Word characters are not uppercase. -/
theorem wordTailChar_not_upper (c : Char) (h : wordTailChar c = true) :
    pyIsUpper c = false := by
  rcases wordTailChar_range c h with ⟨h1, h2⟩ | ⟨h1, h2⟩ <;>
    simp [pyIsUpper, Bool.and_eq_true, decide_eq_true_eq] <;> omega

/-- Word characters are fixed by `lower`. -/
theorem wordTailChar_toLower (c : Char) (h : wordTailChar c = true) :
    pyToLower c = c := by
  unfold pyToLower
  rw [wordTailChar_not_upper c h]
  simp

/-- Word characters are not the underscore. -/
theorem wordTailChar_ne_underscore (c : Char) (h : wordTailChar c = true) : c ≠ '_' := by
  apply char_ne_of_toNat_ne
  rcases wordTailChar_range c h with ⟨h1, h2⟩ | ⟨h1, h2⟩ <;>
    · show c.toNat ≠ 95
      omega

/-- Word characters are neither the space nor the hyphen. -/
theorem wordTailChar_not_sep (c : Char) (h : wordTailChar c = true) :
    (c = ' ' || c = '-') = false := by
  have h32 : c ≠ ' ' := by
    apply char_ne_of_toNat_ne
    rcases wordTailChar_range c h with ⟨h1, h2⟩ | ⟨h1, h2⟩ <;>
      · show c.toNat ≠ 32
        omega
  have h45 : c ≠ '-' := by
    apply char_ne_of_toNat_ne
    rcases wordTailChar_range c h with ⟨h1, h2⟩ | ⟨h1, h2⟩ <;>
      · show c.toNat ≠ 45
        omega
  simp [h32, h45]

/-- A lowercase letter is a word-tail character. -/
theorem lower_wordTailChar (c : Char) (h : pyIsLower c = true) : wordTailChar c = true := by
  simp [wordTailChar, h]

/-- The uppercased image of a lowercase letter: its code drops by 32. -/
theorem pyToUpper_toNat (c : Char) (h : pyIsLower c = true) :
    (pyToUpper c).toNat = c.toNat - 32 := by
  have hr : 97 ≤ c.toNat ∧ c.toNat ≤ 122 := by
    simpa [pyIsLower, Bool.and_eq_true, decide_eq_true_eq] using h
  unfold pyToUpper
  rw [h]
  simp only [if_true]
  exact charOfNatToNat _ (by omega)

/-- The uppercased image of a lowercase letter is uppercase. -/
theorem pyToUpper_upper (c : Char) (h : pyIsLower c = true) :
    pyIsUpper (pyToUpper c) = true := by
  have hr : 97 ≤ c.toNat ∧ c.toNat ≤ 122 := by
    simpa [pyIsLower, Bool.and_eq_true, decide_eq_true_eq] using h
  have ht := pyToUpper_toNat c h
  simp [pyIsUpper, Bool.and_eq_true, decide_eq_true_eq, ht]
  omega

/-- `lower` undoes `upper` on a lowercase letter. -/
theorem pyToLower_pyToUpper (c : Char) (h : pyIsLower c = true) :
    pyToLower (pyToUpper c) = c := by
  have hr : 97 ≤ c.toNat ∧ c.toNat ≤ 122 := by
    simpa [pyIsLower, Bool.and_eq_true, decide_eq_true_eq] using h
  have ht := pyToUpper_toNat c h
  unfold pyToLower
  rw [pyToUpper_upper c h]
  simp only [if_true]
  apply charToNatInj
  rw [charOfNatToNat _ (by omega), ht]
  omega

/-- The uppercased image of a lowercase letter is not the underscore. -/
theorem pyToUpper_ne_underscore (c : Char) (h : pyIsLower c = true) :
    pyToUpper c ≠ '_' := by
  apply char_ne_of_toNat_ne
  rw [pyToUpper_toNat c h]
  have hr : 97 ≤ c.toNat ∧ c.toNat ≤ 122 := by
    simpa [pyIsLower, Bool.and_eq_true, decide_eq_true_eq] using h
  show c.toNat - 32 ≠ 95
  omega

/-- The uppercased image of a lowercase letter is neither space nor hyphen. -/
theorem pyToUpper_not_sep (c : Char) (h : pyIsLower c = true) :
    (pyToUpper c = ' ' || pyToUpper c = '-') = false := by
  have ht := pyToUpper_toNat c h
  have hr : 97 ≤ c.toNat ∧ c.toNat ≤ 122 := by
    simpa [pyIsLower, Bool.and_eq_true, decide_eq_true_eq] using h
  have h1 : pyToUpper c ≠ ' ' := by
    apply char_ne_of_toNat_ne
    rw [ht]
    show c.toNat - 32 ≠ 32
    omega
  have h2 : pyToUpper c ≠ '-' := by
    apply char_ne_of_toNat_ne
    rw [ht]
    show c.toNat - 32 ≠ 45
    omega
  simp [h1, h2]

/-- `subUpper` distributes over concatenation. -/
theorem subUpper_append (a b : List Char) :
    subUpper (a ++ b) = subUpper a ++ subUpper b := by
  induction a with
  | nil => rfl
  | cons c t ih =>
      by_cases h : pyIsUpper c = true
      · simp [subUpper, h, ih]
      · rw [Bool.not_eq_true] at h
        simp [subUpper, h, ih]

/-- `subUpper` fixes strings without uppercase letters. -/
theorem subUpper_id (l : List Char) (h : ∀ c ∈ l, pyIsUpper c = false) :
    subUpper l = l := by
  induction l with
  | nil => rfl
  | cons c t ih =>
      rw [subUpper, h c (by simp), ih (fun d hd => h d (by simp [hd]))]
      simp

/-- `collapseGo` fixes strings without class characters, whatever the flag. -/
theorem collapseGo_id_of_no_class (p : Char → Bool) (rep : Char) (l : List Char)
    (h : ∀ c ∈ l, p c = false) : ∀ b, collapseGo p rep b l = l := by
  induction l with
  | nil => intro b; rfl
  | cons c t ih =>
      intro b
      rw [collapseGo, h c (by simp)]
      simp only [Bool.false_eq_true, if_false]
      exact congrArg (c :: ·) (ih (fun d hd => h d (by simp [hd])) false)

/-- With a lowered flag, `collapseGo` passes over a class-free prefix. -/
theorem collapseGo_append_no_class (p : Char → Bool) (rep : Char) (w rest : List Char)
    (h : ∀ c ∈ w, p c = false) :
    collapseGo p rep false (w ++ rest) = w ++ collapseGo p rep false rest := by
  induction w with
  | nil => rfl
  | cons c t ih =>
      rw [List.cons_append, collapseGo, h c (by simp), ih (fun d hd => h d (by simp; tauto))]
      simp

/-- `collapseGo` on an underscore-joined list of non-empty underscore-free
words: identity, whatever the incoming flag. -/
theorem collapseGo_joinWords (ws : List (List Char))
    (hws : ∀ w ∈ ws, w ≠ [] ∧ ∀ c ∈ w, isUnderscore c = false) (hne : ws ≠ []) :
    ∀ b, collapseGo isUnderscore '_' b (joinWords ws) = joinWords ws := by
  induction ws with
  | nil => exact absurd rfl hne
  | cons w ws2 ih =>
      intro b
      obtain ⟨hwne, hwc⟩ := hws w (List.mem_cons_self _ _)
      obtain ⟨c, t, rfl⟩ : ∃ c t, w = c :: t := by
        cases w with
        | nil => exact absurd rfl hwne
        | cons c t => exact ⟨c, t, rfl⟩
      have htail : ∀ d ∈ t, isUnderscore d = false :=
        fun d hd => hwc d (List.mem_cons_of_mem _ hd)
      cases ws2 with
      | nil =>
          show collapseGo isUnderscore '_' b (c :: t) = c :: t
          rw [collapseGo, hwc c (List.mem_cons_self _ _),
            collapseGo_id_of_no_class isUnderscore '_' t htail false]
          simp
      | cons w2 ws3 =>
          show collapseGo isUnderscore '_' b
              ((c :: t) ++ '_' :: joinWords (w2 :: ws3)) =
            (c :: t) ++ '_' :: joinWords (w2 :: ws3)
          rw [List.cons_append, collapseGo, hwc c (List.mem_cons_self _ _)]
          simp only [Bool.false_eq_true, if_false]
          rw [collapseGo_append_no_class isUnderscore '_' t _ htail]
          rw [collapseGo]
          rw [show isUnderscore '_' = true from rfl]
          simp only [if_true]
          rw [ih (fun w3 hw3 => hws w3 (List.mem_cons_of_mem _ hw3)) (by simp) true]
          simp

/-- Strip is the identity when neither end is an underscore. -/
theorem pyStripUnderscore_id (l : List Char) (c d : Char)
    (h1 : l.head? = some c) (hc : c ≠ '_') (h2 : l.getLast? = some d) (hd : d ≠ '_') :
    pyStripUnderscore l = l := by
  cases l with
  | nil => cases h1
  | cons c0 t =>
      have hc0 : c0 = c := by
        cases h1
        rfl
      subst hc0
      have hstep1 : (c0 :: t).dropWhile (· = '_') = c0 :: t :=
        List.dropWhile_cons_of_neg (by simpa using hc)
      have hstep2 : (c0 :: t).reverse.dropWhile (· = '_') = (c0 :: t).reverse := by
        cases hrev : (c0 :: t).reverse with
        | nil => exact absurd hrev (by simp)
        | cons d0 r =>
            have hd0 : d0 = d := by
              have hh := List.head?_reverse (c0 :: t)
              rw [hrev, h2] at hh
              cases hh
              rfl
            subst hd0
            exact List.dropWhile_cons_of_neg (by simpa using hd)
      unfold pyStripUnderscore
      rw [hstep1, hstep2, List.reverse_reverse]

/-- Stripping underscores ignores one leading underscore. -/
theorem pyStripUnderscore_cons_underscore (l : List Char) :
    pyStripUnderscore ('_' :: l) = pyStripUnderscore l := by
  unfold pyStripUnderscore
  rw [List.dropWhile_cons_of_pos (by simp)]

/-- `joinWords` of non-empty words is non-empty. -/
theorem joinWords_ne_nil (ws : List (List Char)) (hne : ws ≠ [])
    (hws : ∀ w ∈ ws, w ≠ []) : joinWords ws ≠ [] := by
  cases ws with
  | nil => exact absurd rfl hne
  | cons w ws2 =>
      cases ws2 with
      | nil => exact hws w (by simp)
      | cons w2 ws3 =>
          show w ++ '_' :: joinWords (w2 :: ws3) ≠ []
          simp

/-- The head of `joinWords` is the head of its first word. -/
theorem joinWords_head (c : Char) (t : List Char) (ws2 : List (List Char)) :
    (joinWords ((c :: t) :: ws2)).head? = some c := by
  cases ws2 with
  | nil => rfl
  | cons w2 ws3 => rfl

/-- The last character of `joinWords` over non-empty words all of whose
characters satisfy `Q` satisfies `Q`. -/
theorem joinWords_getLast (Q : Char → Prop) (ws : List (List Char)) (hne : ws ≠ [])
    (hws : ∀ w ∈ ws, w ≠ [] ∧ ∀ c ∈ w, Q c) :
    ∃ d, (joinWords ws).getLast? = some d ∧ Q d := by
  induction ws with
  | nil => exact absurd rfl hne
  | cons w ws2 ih =>
      obtain ⟨hwne, hwq⟩ := hws w (by simp)
      cases ws2 with
      | nil =>
          refine ⟨w.getLast hwne, ?_, hwq _ (List.getLast_mem hwne)⟩
          show w.getLast? = some (w.getLast hwne)
          rw [List.getLast?_eq_getLast_of_ne_nil hwne]
      | cons w2 ws3 =>
          obtain ⟨d, hd, hq⟩ := ih (by simp)
            (fun w3 hw3 => hws w3 (List.mem_cons_of_mem _ hw3))
          refine ⟨d, ?_, hq⟩
          show (w ++ '_' :: joinWords (w2 :: ws3)).getLast? = some d
          have hjne : joinWords (w2 :: ws3) ≠ [] :=
            joinWords_ne_nil _ (by simp)
              (fun w3 hw3 => (hws w3 (List.mem_cons_of_mem _ hw3)).1)
          rw [List.getLast?_append_cons]
          rw [show ('_' :: joinWords (w2 :: ws3)) = ['_'] ++ joinWords (w2 :: ws3) from rfl]
          rw [List.getLast?_append_of_ne_nil _ hjne]
          exact hd

/-- Every character of `joinWords` is an underscore or a word character. -/
theorem mem_joinWords (ws : List (List Char)) (c : Char) (h : c ∈ joinWords ws) :
    c = '_' ∨ ∃ w ∈ ws, c ∈ w := by
  induction ws with
  | nil => cases h
  | cons w ws2 ih =>
      cases ws2 with
      | nil => exact Or.inr ⟨w, by simp, h⟩
      | cons w2 ws3 =>
          rw [show joinWords (w :: w2 :: ws3) = w ++ '_' :: joinWords (w2 :: ws3) from rfl]
            at h
          rcases List.mem_append.mp h with h1 | h1
          · exact Or.inr ⟨w, by simp, h1⟩
          · rcases List.mem_cons.mp h1 with h2 | h2
            · exact Or.inl h2
            · rcases ih h2 with h3 | ⟨w3, hw3, hc3⟩
              · exact Or.inl h3
              · exact Or.inr ⟨w3, List.mem_cons_of_mem _ hw3, hc3⟩

/-- `pySplitAux` passes over a separator-free prefix, accumulating it. -/
theorem pySplitAux_append (sep : Char) (w rest acc : List Char)
    (h : ∀ c ∈ w, c ≠ sep) :
    pySplitAux sep (w ++ rest) acc = pySplitAux sep rest (w.reverse ++ acc) := by
  induction w generalizing acc with
  | nil => simp
  | cons c t ih =>
      rw [List.cons_append, pySplitAux, if_neg (h c (by simp)),
        ih _ (fun d hd => h d (by simp [hd]))]
      simp

/-- Splitting an underscore-joined list of underscore-free words restores the
words. -/
theorem pySplitChar_joinWords (ws : List (List Char)) (hne : ws ≠ [])
    (hws : ∀ w ∈ ws, ∀ c ∈ w, c ≠ '_') :
    pySplitChar '_' (joinWords ws) = ws := by
  induction ws with
  | nil => exact absurd rfl hne
  | cons w ws2 ih =>
      cases ws2 with
      | nil =>
          show pySplitAux '_' (joinWords [w]) [] = [w]
          rw [show joinWords [w] = w ++ [] from by simp [joinWords]]
          rw [pySplitAux_append _ _ _ _ (hws w (by simp))]
          simp [pySplitAux]
      | cons w2 ws3 =>
          show pySplitAux '_' (w ++ '_' :: joinWords (w2 :: ws3)) [] = w :: w2 :: ws3
          rw [pySplitAux_append _ _ _ _ (hws w (by simp))]
          rw [pySplitAux, if_pos rfl]
          rw [show pySplitAux '_' (joinWords (w2 :: ws3)) [] =
              pySplitChar '_' (joinWords (w2 :: ws3)) from rfl]
          rw [ih (by simp) (fun w3 hw3 => hws w3 (List.mem_cons_of_mem _ hw3))]
          simp

/-- `pyStrLower` fixes strings whose characters `lower` fixes. -/
theorem pyStrLower_id (l : List Char) (h : ∀ c ∈ l, pyToLower c = c) :
    pyStrLower l = l := by
  induction l with
  | nil => rfl
  | cons c t ih =>
      show pyToLower c :: pyStrLower t = c :: t
      rw [h c (by simp), ih (fun d hd => h d (by simp [hd]))]

/-- Prefixing every mapped word with an underscore and flattening gives an
underscore followed by the underscore-join of the mapped words. -/
theorem flatten_cons_underscore (f : List Char → List Char) (ws : List (List Char))
    (hne : ws ≠ []) :
    (ws.map (fun w => '_' :: f w)).flatten = '_' :: joinWords (ws.map f) := by
  induction ws with
  | nil => exact absurd rfl hne
  | cons w ws2 ih =>
      cases ws2 with
      | nil => simp [joinWords]
      | cons w2 ws3 =>
          rw [List.map_cons, List.flatten_cons, ih (by simp)]
          rw [show joinWords (List.map f (w :: w2 :: ws3)) =
              f w ++ '_' :: joinWords (List.map f (w2 :: ws3)) from by
            rw [List.map_cons, List.map_cons]
            rfl]
          simp

/-- Decomposing a grammar word. -/
theorem isLowerWord_shape (w : List Char) (h : isLowerWord w = true) :
    ∃ c t, w = c :: t ∧ pyIsLower c = true ∧ ∀ d ∈ t, wordTailChar d = true := by
  cases w with
  | nil => cases h
  | cons c t =>
      rw [isLowerWord, Bool.and_eq_true, List.all_eq_true] at h
      exact ⟨c, t, rfl, h.1, h.2⟩

/-- Every character of a grammar word is a word character. -/
theorem isLowerWord_chars (w : List Char) (h : isLowerWord w = true) :
    ∀ c ∈ w, wordTailChar c = true := by
  obtain ⟨c, t, rfl, hc, ht⟩ := isLowerWord_shape w h
  intro d hd
  rcases List.mem_cons.mp hd with h1 | h1
  · subst h1
    exact lower_wordTailChar d hc
  · exact ht d h1

/-- Grammar words are non-empty. -/
theorem isLowerWord_ne_nil (w : List Char) (h : isLowerWord w = true) : w ≠ [] := by
  obtain ⟨c, t, rfl, _, _⟩ := isLowerWord_shape w h
  simp

/-- Capitalizing a grammar word uppercases its head and keeps its tail. -/
theorem pyCapitalize_word (c : Char) (t : List Char) (_hc : pyIsLower c = true)
    (ht : ∀ d ∈ t, wordTailChar d = true) :
    pyCapitalize (c :: t) = pyToUpper c :: t := by
  rw [pyCapitalize]
  rw [show t.map pyToLower = t from pyStrLower_id t
    (fun d hd => wordTailChar_toLower d (ht d hd))]

/-- C10 part one: `to_snake_case` fixes every grammar string (idempotence on
snake_case input). -/
theorem to_snake_case_joinWords (ws : List (List Char)) (hne : ws ≠ [])
    (hw : ∀ w ∈ ws, isLowerWord w = true) :
    to_snake_case (joinWords ws) = joinWords ws := by
  have hchars : ∀ c ∈ joinWords ws, c = '_' ∨ wordTailChar c = true := by
    intro c hc
    rcases mem_joinWords ws c hc with h | ⟨w, hwmem, hcw⟩
    · exact Or.inl h
    · exact Or.inr (isLowerWord_chars w (hw w hwmem) c hcw)
  have h1 : subUpper (joinWords ws) = joinWords ws := by
    apply subUpper_id
    intro c hc
    rcases hchars c hc with h | h
    · subst h
      decide
    · exact wordTailChar_not_upper c h
  have h2 : collapseRuns isSpaceHyphen '_' (joinWords ws) = joinWords ws := by
    apply collapseGo_id_of_no_class
    intro c hc
    rcases hchars c hc with h | h
    · subst h
      decide
    · exact wordTailChar_not_sep c h
  have h3 : collapseRuns isUnderscore '_' (joinWords ws) = joinWords ws := by
    apply collapseGo_joinWords ws ?_ hne false
    intro w hwmem
    refine ⟨isLowerWord_ne_nil w (hw w hwmem), ?_⟩
    intro c hc
    have := wordTailChar_ne_underscore c (isLowerWord_chars w (hw w hwmem) c hc)
    simp [isUnderscore, this]
  have h4 : pyStripUnderscore (joinWords ws) = joinWords ws := by
    obtain ⟨w, ws2, rfl⟩ : ∃ w ws2, ws = w :: ws2 := by
      cases ws with
      | nil => exact absurd rfl hne
      | cons w ws2 => exact ⟨w, ws2, rfl⟩
    obtain ⟨c, t, rfl, hc, ht⟩ := isLowerWord_shape w (hw w (by simp))
    obtain ⟨d, hd, hq⟩ := joinWords_getLast (fun d => wordTailChar d = true)
      ((c :: t) :: ws2) (by simp)
      (fun w2 hw2 => ⟨isLowerWord_ne_nil w2 (hw w2 hw2), isLowerWord_chars w2 (hw w2 hw2)⟩)
    exact pyStripUnderscore_id _ c d (joinWords_head c t ws2)
      (wordTailChar_ne_underscore c (lower_wordTailChar c hc)) hd
      (wordTailChar_ne_underscore d hq)
  have h5 : pyStrLower (joinWords ws) = joinWords ws := by
    apply pyStrLower_id
    intro c hc
    rcases hchars c hc with h | h
    · subst h
      decide
    · exact wordTailChar_toLower c h
  show pyStrLower (pyStripUnderscore
    (collapseRuns isUnderscore '_' (collapseRuns isSpaceHyphen '_'
      (subUpper (joinWords ws))))) = joinWords ws
  rw [h1, h2, h3, h4, h5]

/-- `to_pascal_case` on a grammar string capitalizes each word and joins them
without separators. -/
theorem to_pascal_case_joinWords (ws : List (List Char)) (hne : ws ≠ [])
    (hw : ∀ w ∈ ws, isLowerWord w = true) :
    to_pascal_case (joinWords ws) = (ws.map pyCapitalize).flatten := by
  unfold to_pascal_case
  rw [to_snake_case_joinWords ws hne hw]
  rw [pySplitChar_joinWords ws hne
    (fun w hwmem c hc => wordTailChar_ne_underscore c
      (isLowerWord_chars w (hw w hwmem) c hc))]

/-- `subUpper` turns the capitalized concatenation into underscore-prefixed
capitalized words. -/
theorem subUpper_flatten_caps (ws : List (List Char))
    (hw : ∀ w ∈ ws, isLowerWord w = true) :
    subUpper ((ws.map pyCapitalize).flatten) =
      (ws.map (fun w => '_' :: pyCapitalize w)).flatten := by
  induction ws with
  | nil => rfl
  | cons w ws2 ih =>
      rw [List.map_cons, List.flatten_cons, subUpper_append,
        ih (fun w2 hw2 => hw w2 (List.mem_cons_of_mem _ hw2)),
        List.map_cons, List.flatten_cons]
      obtain ⟨c, t, rfl, hc, ht⟩ := isLowerWord_shape w (hw w (by simp))
      rw [pyCapitalize_word c t hc ht]
      rw [subUpper, pyToUpper_upper c hc,
        subUpper_id t (fun d hd => wordTailChar_not_upper d (ht d hd))]
      simp

/-- `lower` undoes the capitalization of every word in the join. -/
theorem pyStrLower_joinWords_caps (ws : List (List Char))
    (hw : ∀ w ∈ ws, isLowerWord w = true) :
    pyStrLower (joinWords (ws.map pyCapitalize)) = joinWords ws := by
  induction ws with
  | nil => rfl
  | cons w ws2 ih =>
      obtain ⟨c, t, rfl, hc, ht⟩ := isLowerWord_shape w (hw w (by simp))
      have hcapeq : pyStrLower (pyCapitalize (c :: t)) = c :: t := by
        rw [pyCapitalize_word c t hc ht]
        show pyToLower (pyToUpper c) :: pyStrLower t = c :: t
        rw [pyToLower_pyToUpper c hc,
          pyStrLower_id t (fun d hd => wordTailChar_toLower d (ht d hd))]
      cases ws2 with
      | nil =>
          show pyStrLower (pyCapitalize (c :: t)) = c :: t
          exact hcapeq
      | cons w2 ws3 =>
          show pyStrLower (pyCapitalize (c :: t) ++
            '_' :: joinWords ((w2 :: ws3).map pyCapitalize)) = _
          rw [show pyStrLower (pyCapitalize (c :: t) ++
              '_' :: joinWords ((w2 :: ws3).map pyCapitalize)) =
            pyStrLower (pyCapitalize (c :: t)) ++
              pyToLower '_' :: pyStrLower (joinWords ((w2 :: ws3).map pyCapitalize)) from by
            simp [pyStrLower]]
          rw [hcapeq, ih (fun w3 hw3 => hw w3 (List.mem_cons_of_mem _ hw3))]
          rfl

/-- C10 part two: `to_snake_case` maps the PascalCase concatenation back to
the original grammar string. -/
theorem to_snake_case_caps (ws : List (List Char)) (hne : ws ≠ [])
    (hw : ∀ w ∈ ws, isLowerWord w = true) :
    to_snake_case ((ws.map pyCapitalize).flatten) = joinWords ws := by
  have hcapwords : ∀ w2 ∈ ws.map pyCapitalize, w2 ≠ [] ∧ ∀ c ∈ w2, c ≠ '_' := by
    intro w2 hw2
    obtain ⟨w, hwmem, rfl⟩ := List.mem_map.mp hw2
    obtain ⟨c, t, rfl, hc, ht⟩ := isLowerWord_shape w (hw w hwmem)
    rw [pyCapitalize_word c t hc ht]
    refine ⟨by simp, ?_⟩
    intro d hd
    rcases List.mem_cons.mp hd with h1 | h1
    · subst h1
      exact pyToUpper_ne_underscore c hc
    · exact wordTailChar_ne_underscore d (ht d h1)
  have hcapsep : ∀ w2 ∈ ws.map pyCapitalize, ∀ c ∈ w2, isSpaceHyphen c = false := by
    intro w2 hw2
    obtain ⟨w, hwmem, rfl⟩ := List.mem_map.mp hw2
    obtain ⟨c, t, rfl, hc, ht⟩ := isLowerWord_shape w (hw w hwmem)
    rw [pyCapitalize_word c t hc ht]
    intro d hd
    rcases List.mem_cons.mp hd with h1 | h1
    · subst h1
      exact pyToUpper_not_sep c hc
    · exact wordTailChar_not_sep d (ht d h1)
  have h1 : subUpper ((ws.map pyCapitalize).flatten) =
      '_' :: joinWords (ws.map pyCapitalize) := by
    rw [subUpper_flatten_caps ws hw, flatten_cons_underscore pyCapitalize ws hne]
  have h2 : collapseRuns isSpaceHyphen '_' ('_' :: joinWords (ws.map pyCapitalize)) =
      '_' :: joinWords (ws.map pyCapitalize) := by
    apply collapseGo_id_of_no_class
    intro c hc
    rcases List.mem_cons.mp hc with h | h
    · subst h
      decide
    · rcases mem_joinWords _ c h with h3 | ⟨w2, hw2, hc2⟩
      · subst h3
        decide
      · exact hcapsep w2 hw2 c hc2
  have h3 : collapseRuns isUnderscore '_' ('_' :: joinWords (ws.map pyCapitalize)) =
      '_' :: joinWords (ws.map pyCapitalize) := by
    show collapseGo isUnderscore '_' false ('_' :: joinWords (ws.map pyCapitalize)) = _
    rw [collapseGo]
    rw [show isUnderscore '_' = true from rfl]
    simp only [if_true]
    rw [collapseGo_joinWords (ws.map pyCapitalize)
      (fun w2 hw2 => ⟨(hcapwords w2 hw2).1,
        fun c hc => by simp [isUnderscore, (hcapwords w2 hw2).2 c hc]⟩)
      (by simpa using hne) true]
    simp
  have h4 : pyStripUnderscore ('_' :: joinWords (ws.map pyCapitalize)) =
      joinWords (ws.map pyCapitalize) := by
    rw [pyStripUnderscore_cons_underscore]
    obtain ⟨w, ws2, rfl⟩ : ∃ w ws2, ws = w :: ws2 := by
      cases ws with
      | nil => exact absurd rfl hne
      | cons w ws2 => exact ⟨w, ws2, rfl⟩
    obtain ⟨c, t, rfl, hc, ht⟩ := isLowerWord_shape w (hw w (by simp))
    obtain ⟨d, hd, hq⟩ := joinWords_getLast (fun d => d ≠ '_')
      (((c :: t) :: ws2).map pyCapitalize) (by simp) hcapwords
    refine pyStripUnderscore_id _ (pyToUpper c) d ?_ (pyToUpper_ne_underscore c hc) hd hq
    rw [List.map_cons, pyCapitalize_word c t hc ht]
    exact joinWords_head (pyToUpper c) t _
  show pyStrLower (pyStripUnderscore
    (collapseRuns isUnderscore '_' (collapseRuns isSpaceHyphen '_'
      (subUpper ((ws.map pyCapitalize).flatten))))) = joinWords ws
  rw [h1, h2, h3, h4, pyStrLower_joinWords_caps ws hw]

/-- C10: on every grammar string (one or more underscore-joined words, each a
lowercase letter followed by lowercase letters or digits) the conversion
round-trip holds — `to_snake_case (to_pascal_case s) = s` — and
`to_snake_case` is idempotent on such strings. -/
theorem c10_case_roundtrip (ws : List (List Char)) (hne : ws ≠ [])
    (hw : ∀ w ∈ ws, isLowerWord w = true) :
    to_snake_case (to_pascal_case (joinWords ws)) = joinWords ws ∧
    to_snake_case (joinWords ws) = joinWords ws := by
  refine ⟨?_, to_snake_case_joinWords ws hne hw⟩
  rw [to_pascal_case_joinWords ws hne hw, to_snake_case_caps ws hne hw]

/-- C10 witness: the round trip applied to the concrete string `"ab_c1"`. -/
theorem c10_witness :
    to_snake_case (to_pascal_case (joinWords [['a', 'b'], ['c', '1']])) =
      joinWords [['a', 'b'], ['c', '1']] ∧
    to_snake_case (joinWords [['a', 'b'], ['c', '1']]) =
      joinWords [['a', 'b'], ['c', '1']] :=
  c10_case_roundtrip [['a', 'b'], ['c', '1']] (by simp) (by decide)

end RefactorForge
